import Mathlib

/-!
Shallow embedding of the ZIP-archive reader (`src/read.rs`, `src/result.rs`)
for verification of the specification's claims.

Byte sources are modelled as `List Byte` (a byte is `Fin 256`); u16/u32/u64
machine integers are `Nat` with explicit `% 2 ^ 64` at the points where the
Rust code performs unchecked u64 addition (release-mode wrap-around).
Fallible operations return `Except ZipErr` or carry an `Option ZipErr`.

Modules of the crate that are not part of the given sources (`spec.rs`,
`types.rs`, `compression.rs`, `cp437.rs`, `zipcrypto.rs`, `crc32.rs`) are
modelled from the spec where a claim needs them; each such definition is
marked `Modelled from the spec:` in its doc comment.  Text decoders and the
ZipCrypto validator are out-of-scope collaborators per spec §1 and are passed
as function parameters.
-/

abbrev Byte := Fin 256

/-- Little-endian u16 read at an absolute cursor position (a
`ReadBytesExt::read_u16::<LittleEndian>` on an `io::Cursor`); `none` models
the `io` error on insufficient bytes. -/
def readU16At (s : List Byte) (i : Nat) : Option Nat :=
  match s[i]?, s[i+1]? with
  | some a, some b => some (a.val + 256 * b.val)
  | _, _ => none

/-- Little-endian u32 read at an absolute cursor position. -/
def readU32At (s : List Byte) (i : Nat) : Option Nat :=
  match readU16At s i, readU16At s (i+2) with
  | some a, some b => some (a + 65536 * b)
  | _, _ => none

/-- Little-endian u64 read at an absolute cursor position. -/
def readU64At (s : List Byte) (i : Nat) : Option Nat :=
  match readU32At s i, readU32At s (i+4) with
  | some a, some b => some (a + 4294967296 * b)
  | _, _ => none

/-- Little-endian u16 read from the front of a stream. -/
def readU16le (s : List Byte) : Option (Nat × List Byte) :=
  match s with
  | a :: b :: r => some (a.val + 256 * b.val, r)
  | _ => none

/-- Little-endian u32 read from the front of a stream. -/
def readU32le (s : List Byte) : Option (Nat × List Byte) :=
  match s with
  | a :: b :: c :: d :: r =>
      some (a.val + 256 * b.val + 65536 * c.val + 16777216 * d.val, r)
  | _ => none

/-- `read_exact` of `n` bytes from the front of a stream. -/
def readBytes (n : Nat) (s : List Byte) : Option (List Byte × List Byte) :=
  if n ≤ s.length then some (s.take n, s.drop n) else none

/-- Error taxonomy of `src/result.rs` (`ZipError`).  The payload of `Io` is
an opaque `io::Error`; all I/O failures are identified here. -/
inductive ZipErr where
  | ioErr : ZipErr
  | invalidArchive : String → ZipErr
  | unsupportedArchive : String → ZipErr
  | fileNotFound : ZipErr
  | passwordRequired : ZipErr
  | invalidPassword : ZipErr
deriving Repr, DecidableEq

/-- Decidable equality for `Except`, so that concrete runs of the embedded
parsers can be checked by `decide`. -/
def Except.decEq {ε α : Type} [DecidableEq ε] [DecidableEq α] :
    (x y : Except ε α) → Decidable (x = y)
  | .ok a, .ok b =>
    if h : a = b then isTrue (h ▸ rfl)
    else isFalse (fun hh => h (Except.ok.inj hh))
  | .error a, .error b =>
    if h : a = b then isTrue (h ▸ rfl)
    else isFalse (fun hh => h (Except.error.inj hh))
  | .ok _, .error _ => isFalse (fun hh => Except.noConfusion hh)
  | .error _, .ok _ => isFalse (fun hh => Except.noConfusion hh)

instance {ε α : Type} [DecidableEq ε] [DecidableEq α] :
    DecidableEq (Except ε α) := Except.decEq

/-- Modelled from the spec: `System` lives in `types.rs` (not among the
sources); spec §3: `enum {Dos, Unix, Other(u8)}` decoded from the high byte
of version-made-by (APPNOTE values 0 = DOS, 3 = Unix). -/
inductive System where
  | dos : System
  | unix : System
  | other : Nat → System
deriving Repr, DecidableEq

/-- Modelled from the spec: `System::from_u8`. -/
def System.from_u8 (v : Nat) : System :=
  if v = 0 then .dos else if v = 3 then .unix else .other v

/-- Compression methods; `compression.rs` is not among the sources, the
on-disk numbers are spec §6: STORED 0, DEFLATE 8, BZIP2 12. -/
inductive CompressionMethod where
  | stored : CompressionMethod
  | deflated : CompressionMethod
  | bzip2 : CompressionMethod
  | unsupported : Nat → CompressionMethod
deriving Repr, DecidableEq

/-- Modelled from the spec: `CompressionMethod::from_u16`. -/
def CompressionMethod.from_u16 (v : Nat) : CompressionMethod :=
  if v = 0 then .stored else if v = 8 then .deflated
  else if v = 12 then .bzip2 else .unsupported v

/-- Modelled from the spec: `DateTime` (`types.rs` is not among the
sources); the claims never inspect the decoded calendar fields, so the
model keeps the two raw MS-DOS words passed to `DateTime::from_msdos`. -/
structure DateTime where
  date : Nat
  time : Nat
deriving Repr, DecidableEq

/-- Modelled from the spec: `DateTime::from_msdos(date, time)`. -/
def DateTime.from_msdos (date time : Nat) : DateTime := ⟨date, time⟩

/-- Per-entry metadata (`ZipFileData` of `types.rs`, with exactly the
fields constructed and consumed by `read.rs`). -/
structure ZipFileData where
  system : System
  version_made_by : Nat
  encrypted : Bool
  compression_method : CompressionMethod
  last_modified_time : DateTime
  crc32 : Nat
  compressed_size : Nat
  uncompressed_size : Nat
  file_name : String
  file_name_raw : List Byte
  file_comment : String
  header_start : Nat
  central_header_start : Nat
  data_start : Nat
  external_attributes : Nat
deriving Repr, DecidableEq

def LOCAL_FILE_HEADER_SIGNATURE : Nat := 0x04034b50

def CENTRAL_DIRECTORY_HEADER_SIGNATURE : Nat := 0x02014b50

/-! ## `parse_extra_field` (read.rs lines 1141-1172)

The walk is split into one step per TLV record (`pefStep`) and a loop
(`pefLoop`).  A step returns the (possibly partially) updated entry, the
cursor position for the next record, and an optional error; on error the
loop aborts, surfacing the partially updated entry exactly as the in-place
mutation of the Rust code does. -/

/-- Third conditional read of the ZIP64 (0x0001) record body: the
local-header offset.  `p` is the cursor just past the `(kind, len)` pair,
`c` the bytes consumed so far inside this record. -/
def pefZip64Header (file : ZipFileData) (data : List Byte) (p c : Nat) :
    (ZipFileData × Nat) × Option ZipErr :=
  if file.header_start = 0xFFFFFFFF then
    match readU64At data (p + c) with
    | none => ((file, c), some .ioErr)
    | some v => (({ file with header_start := v }, c + 8), none)
  else ((file, c), none)

/-- Second conditional read of the ZIP64 record body: compressed size. -/
def pefZip64Compressed (file : ZipFileData) (data : List Byte) (p c : Nat) :
    (ZipFileData × Nat) × Option ZipErr :=
  if file.compressed_size = 0xFFFFFFFF then
    match readU64At data (p + c) with
    | none => ((file, c), some .ioErr)
    | some v => pefZip64Header { file with compressed_size := v } data p (c + 8)
  else pefZip64Header file data p c

/-- First conditional read of the ZIP64 record body: uncompressed size.
The fixed order uncompressed, compressed, header_start mirrors the source;
the trailing disk-start u32 is not parsed. -/
def pefZip64Uncompressed (file : ZipFileData) (data : List Byte) (p : Nat) :
    (ZipFileData × Nat) × Option ZipErr :=
  if file.uncompressed_size = 0xFFFFFFFF then
    match readU64At data p with
    | none => ((file, 0), some .ioErr)
    | some v => pefZip64Compressed { file with uncompressed_size := v } data p 8
  else pefZip64Compressed file data p 0

/-- One iteration of the extra-field walk: read `(kind, len)`, process the
record by kind, then `if len_left > 0`, seek forward by `len_left`
(`len_left` may be negative, in which case no corrective seek happens).
The returned `Nat` is the cursor position for the next record; on a read
failure its value is irrelevant (the loop aborts). -/
def pefStep (file : ZipFileData) (data : List Byte) (pos : Nat) :
    (ZipFileData × Nat) × Option ZipErr :=
  match readU16At data pos with
  | none => ((file, pos), some .ioErr)
  | some kind =>
    match readU16At data (pos + 2) with
    | none => ((file, pos + 2), some .ioErr)
    | some len =>
      match (if kind = 1 then pefZip64Uncompressed file data (pos + 4)
             else ((file, 0), none)) with
      | ((f, c), some e) => ((f, pos + 4 + c), some e)
      | ((f, c), none) =>
        let lenLeft : Int := (len : Int) - (c : Int)
        if 0 < lenLeft then ((f, pos + 4 + c + lenLeft.toNat), none)
        else ((f, pos + 4 + c), none)

/-- The `while (reader.position() as usize) < data.len()` loop of
`parse_extra_field`.  Structural recursion on a fuel argument so that the
definition computes inside the kernel; every successful step advances the
cursor by at least 4, so fuel `data.length + 1` is never exhausted
(theorem `pefLoop_fuel_irrelevant` below) and the fuel-0 branch is dead. -/
def pefLoop (fuel : Nat) (data : List Byte) (file : ZipFileData) (pos : Nat) :
    ZipFileData × Option ZipErr :=
  match fuel with
  | 0 => (file, none)
  | fuel + 1 =>
    if pos < data.length then
      match pefStep file data pos with
      | ((f, _), some e) => (f, some e)
      | ((f, p), none) => pefLoop fuel data f p
    else (file, none)

/-- `parse_extra_field` (read.rs 1141-1172).  Returns the updated entry and
`some e` when a read failed; the callers swallow `ZipError::Io` and keep the
partially updated entry. -/
def parse_extra_field (file : ZipFileData) (data : List Byte) :
    ZipFileData × Option ZipErr :=
  pefLoop (data.length + 1) data file 0

/-! ## Central directory header (read.rs 982-1058) -/

/-- The fixed little-endian fields of a central directory file header
(after the signature), plus the three variable-length byte runs. -/
structure CentralHeaderFields where
  version_made_by : Nat
  flags : Nat
  compression_method : Nat
  last_mod_time : Nat
  last_mod_date : Nat
  crc32 : Nat
  compressed_size : Nat
  uncompressed_size : Nat
  external_file_attributes : Nat
  offset : Nat
  file_name_raw : List Byte
  extra_field : List Byte
  file_comment_raw : List Byte
deriving Repr, DecidableEq

/-- Sequential reads of the central header fields after the signature
(read.rs 993-1016); `none` models an I/O error (short read). -/
def readCentralHeaderFields (s0 : List Byte) :
    Option (CentralHeaderFields × List Byte) :=
  match readU16le s0 with
  | none => none
  | some (version_made_by, s) =>
  match readU16le s with
  | none => none
  | some (_version_to_extract, s) =>
  match readU16le s with
  | none => none
  | some (flags, s) =>
  match readU16le s with
  | none => none
  | some (compression_method, s) =>
  match readU16le s with
  | none => none
  | some (last_mod_time, s) =>
  match readU16le s with
  | none => none
  | some (last_mod_date, s) =>
  match readU32le s with
  | none => none
  | some (crc32v, s) =>
  match readU32le s with
  | none => none
  | some (compressed_size, s) =>
  match readU32le s with
  | none => none
  | some (uncompressed_size, s) =>
  match readU16le s with
  | none => none
  | some (file_name_length, s) =>
  match readU16le s with
  | none => none
  | some (extra_field_length, s) =>
  match readU16le s with
  | none => none
  | some (file_comment_length, s) =>
  match readU16le s with
  | none => none
  | some (_disk_number, s) =>
  match readU16le s with
  | none => none
  | some (_internal_file_attributes, s) =>
  match readU32le s with
  | none => none
  | some (external_file_attributes, s) =>
  match readU32le s with
  | none => none
  | some (offset, s) =>
  match readBytes file_name_length s with
  | none => none
  | some (file_name_raw, s) =>
  match readBytes extra_field_length s with
  | none => none
  | some (extra_field, s) =>
  match readBytes file_comment_length s with
  | none => none
  | some (file_comment_raw, s) =>
    some (⟨version_made_by, flags, compression_method, last_mod_time,
      last_mod_date, crc32v, compressed_size, uncompressed_size,
      external_file_attributes, offset, file_name_raw, extra_field,
      file_comment_raw⟩, s)

/-- `central_header_to_zip_file` (read.rs 982-1058) over a stream that
starts at the header.  `utf8dec` and `cp437dec` stand for the out-of-scope
text decoders (`String::from_utf8_lossy` and `cp437.rs`, spec §1);
`central_header_start` is the stream position queried by the source's
initial `seek(Current(0))`. -/
def central_header_to_zip_file (utf8dec cp437dec : List Byte → String)
    (s : List Byte) (central_header_start : Nat) (archive_offset : Nat) :
    Except ZipErr (ZipFileData × List Byte) :=
  match readU32le s with
  | none => .error .ioErr
  | some (signature, s1) =>
    if signature ≠ CENTRAL_DIRECTORY_HEADER_SIGNATURE then
      .error (.invalidArchive ("Invalid Central Directory header"))
    else
      match readCentralHeaderFields s1 with
      | none => .error .ioErr
      | some (h, rest) =>
        let encrypted := h.flags &&& 1 = 1
        let is_utf8 := h.flags &&& (1 <<< 11) ≠ 0
        let file_name :=
          if is_utf8 then utf8dec h.file_name_raw else cp437dec h.file_name_raw
        let file_comment :=
          if is_utf8 then utf8dec h.file_comment_raw
          else cp437dec h.file_comment_raw
        let result : ZipFileData :=
          { system := System.from_u8 (h.version_made_by / 256)
            version_made_by := h.version_made_by % 256
            encrypted := encrypted
            compression_method := CompressionMethod.from_u16 h.compression_method
            last_modified_time := DateTime.from_msdos h.last_mod_date h.last_mod_time
            crc32 := h.crc32
            compressed_size := h.compressed_size
            uncompressed_size := h.uncompressed_size
            file_name := file_name
            file_name_raw := h.file_name_raw
            file_comment := file_comment
            header_start := h.offset
            central_header_start := central_header_start
            data_start := 0
            external_attributes := h.external_file_attributes }
        match parse_extra_field result h.extra_field with
        | (r, some .ioErr) | (r, none) =>
          -- Ok(..) | Err(ZipError::Io(..)) => {}: keep the entry, then
          -- account for shifted zip offsets (u64 wrap-around add).
          .ok ({ r with header_start := (r.header_start + archive_offset) % 2 ^ 64 },
               rest)
        | (_, some e) => .error e

/-! ## End of central directory and `get_directory_counts`
(read.rs 380-477) -/

/-- The parsed EOCD record (`spec::CentralDirectoryEnd`); field names and
widths from spec §4.1 and the uses in read.rs. -/
structure CentralDirectoryEnd where
  disk_number : Nat
  disk_with_central_directory : Nat
  number_of_files_on_this_disk : Nat
  number_of_files : Nat
  central_directory_size : Nat
  central_directory_offset : Nat
  zip_file_comment : List Byte
deriving Repr, DecidableEq

/-- Rust `u64::checked_sub`. -/
def checkedSub (a b : Nat) : Option Nat := if b ≤ a then some (a - b) else none

/-- The `None => ...` arm of the match on the ZIP64 locator inside
`ZipArchive::get_directory_counts` (read.rs 413-427): the directory counts
when no ZIP64 locator was found.  Returns
`(archive_offset, directory_start, number_of_files)`. -/
def get_directory_counts_no_zip64 (footer : CentralDirectoryEnd)
    (cde_start_pos : Nat) : Except ZipErr (Nat × Nat × Nat) :=
  match (checkedSub cde_start_pos footer.central_directory_size).bind
      (fun x => checkedSub x footer.central_directory_offset) with
  | none => .error (.invalidArchive ("Invalid central directory size or offset"))
  | some archive_offset =>
    let directory_start :=
      (footer.central_directory_offset + archive_offset) % 2 ^ 64
    .ok (archive_offset, directory_start, footer.number_of_files_on_this_disk)

/-! ## Local header fix-up and the per-entry reader pipeline
(read.rs 254-321, 596-671) -/

/-- `find_content` (read.rs 254-273): seek to `header_start`, check the
local-file-header signature, read the two u16 lengths at offsets 26 and 28,
set `data_start = header_start + 30 + file_name_length + extra_field_length`
(u64 addition, hence `% 2 ^ 64`), and return the updated entry together
with the `Take`-bounded window of `compressed_size` bytes at
`data_start`. -/
def find_content (data : ZipFileData) (source : List Byte) :
    Except ZipErr (ZipFileData × List Byte) :=
  match readU32At source data.header_start with
  | none => .error .ioErr
  | some signature =>
    if signature ≠ LOCAL_FILE_HEADER_SIGNATURE then
      .error (.invalidArchive ("Invalid local file header"))
    else
      match readU16At source (data.header_start + 26),
            readU16At source (data.header_start + 28) with
      | some file_name_length, some extra_field_length =>
        let magic_and_header := 4 + 22 + 2 + 2
        let data_start :=
          (data.header_start + magic_and_header + file_name_length +
            extra_field_length) % 2 ^ 64
        let d := { data with data_start := data_start }
        .ok (d, (source.drop data_start).take d.compressed_size)
      | _, _ => .error .ioErr

/-- The crypto stage (read.rs 91-94): either the plain `Take` window or a
validated ZipCrypto reader.  The ZipCrypto reader state is represented by
the window the validator returned. -/
inductive CryptoReader where
  | plaintext : List Byte → CryptoReader
  | zipCrypto : List Byte → CryptoReader
deriving Repr, DecidableEq

/-- Modelled from the spec: the type of the ZipCrypto validator
(`ZipCryptoReader::new(reader, password).validate(crc32)`, module
`zipcrypto.rs` is not among the sources; spec §4.6).  Arguments: expected
`crc32`, the bounded window, the password bytes; `.ok none` models
`Ok(None)` (wrong password), `.ok (some r)` a validated reader.  All
theorems below hold for every validator. -/
abbrev ZipCryptoValidator := Nat → List Byte → List Nat → Except ZipErr (Option (List Byte))

/-- `make_crypto_reader` (read.rs 275-296).  The outer `Except` carries
`ZipError`; the inner `Option` is `Result<_, InvalidPassword>` with `none`
for `Err(InvalidPassword)`. -/
def make_crypto_reader (val : ZipCryptoValidator)
    (compression_method : CompressionMethod) (crc32 : Nat)
    (reader : List Byte) (password : Option (List Nat)) :
    Except ZipErr (Option CryptoReader) :=
  match compression_method with
  | .unsupported _ => .error (.unsupportedArchive ("Compression method not supported"))
  | _ =>
    match password with
    | none => .ok (some (.plaintext reader))
    | some pw =>
      match val crc32 reader pw with
      | .error e => .error e
      | .ok none => .ok none
      | .ok (some r) => .ok (some (.zipCrypto r))

/-- The reader stack (read.rs 147-159); `noReader` is the lazy state. -/
inductive ZipFileReaderState where
  | noReader : ZipFileReaderState
  | raw : List Byte → ZipFileReaderState
  | stored : Nat → CryptoReader → ZipFileReaderState
  | deflated : Nat → CryptoReader → ZipFileReaderState
  | bzip2 : Nat → CryptoReader → ZipFileReaderState
deriving Repr, DecidableEq

/-- `make_reader` (read.rs 298-321); all compression features enabled.
The `Unsupported` arm panics in the source and is unreachable because
`make_crypto_reader` has already rejected it; modelled as `noReader`. -/
def make_reader (compression_method : CompressionMethod) (crc32 : Nat)
    (reader : CryptoReader) : ZipFileReaderState :=
  match compression_method with
  | .stored => .stored crc32 reader
  | .deflated => .deflated crc32 reader
  | .bzip2 => .bzip2 crc32 reader
  | .unsupported _ => .noReader

/-- A `ZipFile` handle (read.rs 238-242); the `Cow` ownership flag is a
memory-management detail and not modelled. -/
structure ZipFile where
  data : ZipFileData
  crypto_reader : Option CryptoReader
  reader : ZipFileReaderState
deriving Repr, DecidableEq

/-- `ZipArchive` (read.rs 70-76); the `HashMap` is an association list. -/
structure ZipArchive where
  reader : List Byte
  files : List ZipFileData
  names_map : List (String × Nat)
  offset : Nat
  comment : List Byte
deriving Repr, DecidableEq

/-- `ZipArchive::by_index_with_optional_password` (read.rs 641-671).
Returns the call's result together with the archive state afterwards
(`find_content` mutates `files[i].data_start` in place on success).  The
inner `Option` is `Result<_, InvalidPassword>` with `none` for
`Err(InvalidPassword)`. -/
def ZipArchive.by_index_with_optional_password (val : ZipCryptoValidator)
    (arch : ZipArchive) (file_number : Nat) (password : Option (List Nat)) :
    Except ZipErr (Option ZipFile) × ZipArchive :=
  if h : file_number < arch.files.length then
    let data := arch.files[file_number]
    match password, data.encrypted with
    | none, true =>
      (.error (.unsupportedArchive ("Password required to decrypt file")), arch)
    | p, e =>
      -- (Some(_), false) => password = None: discard a needless password.
      let password : Option (List Nat) :=
        match p, e with
        | some _, false => none
        | p, _ => p
      match find_content data arch.reader with
      | .error err => (.error err, arch)
      | .ok (d, limit_reader) =>
        let arch' := { arch with files := arch.files.set file_number d }
        match make_crypto_reader val d.compression_method d.crc32
            limit_reader password with
        | .error err => (.error err, arch')
        | .ok none => (.ok none, arch')
        | .ok (some crypto_reader) =>
          (.ok (some ⟨d, some crypto_reader, .noReader⟩), arch')
  else (.error .fileNotFound, arch)

/-- `ZipArchive::by_index` (read.rs 620-624).  The `.unwrap()` on the inner
result can only panic on `Err(InvalidPassword)`, which cannot happen with
no password (theorem `by_index_no_password_no_invalid` below); the dead
panic branch is modelled as `.error .invalidPassword`. -/
def ZipArchive.by_index (val : ZipCryptoValidator) (arch : ZipArchive)
    (file_number : Nat) : Except ZipErr ZipFile × ZipArchive :=
  match arch.by_index_with_optional_password val file_number none with
  | (.error e, a) => (.error e, a)
  | (.ok (some f), a) => (.ok f, a)
  | (.ok none, a) => (.error .invalidPassword, a)

/-- `ZipArchive::by_index_decrypt` (read.rs 611-617). -/
def ZipArchive.by_index_decrypt (val : ZipCryptoValidator) (arch : ZipArchive)
    (file_number : Nat) (password : List Nat) :
    Except ZipErr (Option ZipFile) × ZipArchive :=
  arch.by_index_with_optional_password val file_number (some password)

/-- `ZipArchive::by_name_with_optional_password` (read.rs 596-608). -/
def ZipArchive.by_name_with_optional_password (val : ZipCryptoValidator)
    (arch : ZipArchive) (name : String) (password : Option (List Nat)) :
    Except ZipErr (Option ZipFile) × ZipArchive :=
  match arch.names_map.lookup name with
  | none => (.error .fileNotFound, arch)
  | some index => arch.by_index_with_optional_password val index password

/-- `ZipArchive::by_name` (read.rs 592-594); the `.unwrap()` is modelled as
in `by_index`. -/
def ZipArchive.by_name (val : ZipCryptoValidator) (arch : ZipArchive)
    (name : String) : Except ZipErr ZipFile × ZipArchive :=
  match arch.by_name_with_optional_password val name none with
  | (.error e, a) => (.error e, a)
  | (.ok (some f), a) => (.ok f, a)
  | (.ok none, a) => (.error .invalidPassword, a)

/-- `ZipArchive::by_name_decrypt` (read.rs 583-589). -/
def ZipArchive.by_name_decrypt (val : ZipCryptoValidator) (arch : ZipArchive)
    (name : String) (password : List Nat) :
    Except ZipErr (Option ZipFile) × ZipArchive :=
  arch.by_name_with_optional_password val name (some password)

/-- `ZipArchive::by_index_raw` (read.rs 627-639): no password parameter,
no crypto stage; the reader is `Raw` over the `find_content` window. -/
def ZipArchive.by_index_raw (arch : ZipArchive) (file_number : Nat) :
    Except ZipErr ZipFile × ZipArchive :=
  if h : file_number < arch.files.length then
    match find_content arch.files[file_number] arch.reader with
    | .error e => (.error e, arch)
    | .ok (d, limit_reader) =>
      (.ok ⟨d, none, .raw limit_reader⟩,
       { arch with files := arch.files.set file_number d })
  else (.error .fileNotFound, arch)

/-! ## Streaming reader (read.rs 1555-1638) -/

/-- The fields of a local file header read by `read_zipfile_from_stream`
after the signature. -/
structure LocalHeaderFields where
  version_made_by : Nat
  flags : Nat
  compression_method : Nat
  last_mod_time : Nat
  last_mod_date : Nat
  crc32 : Nat
  compressed_size : Nat
  uncompressed_size : Nat
  file_name_raw : List Byte
  extra_field : List Byte
deriving Repr, DecidableEq

/-- Sequential reads of the local header fields after the signature
(read.rs 1566-1584); `none` models an I/O error (short stream). -/
def readLocalHeaderFields (s0 : List Byte) :
    Option (LocalHeaderFields × List Byte) :=
  match readU16le s0 with
  | none => none
  | some (version_made_by, s) =>
  match readU16le s with
  | none => none
  | some (flags, s) =>
  match readU16le s with
  | none => none
  | some (compression_method, s) =>
  match readU16le s with
  | none => none
  | some (last_mod_time, s) =>
  match readU16le s with
  | none => none
  | some (last_mod_date, s) =>
  match readU32le s with
  | none => none
  | some (crc32v, s) =>
  match readU32le s with
  | none => none
  | some (compressed_size, s) =>
  match readU32le s with
  | none => none
  | some (uncompressed_size, s) =>
  match readU16le s with
  | none => none
  | some (file_name_length, s) =>
  match readU16le s with
  | none => none
  | some (extra_field_length, s) =>
  match readBytes file_name_length s with
  | none => none
  | some (file_name_raw, s) =>
  match readBytes extra_field_length s with
  | none => none
  | some (extra_field, s) =>
    some (⟨version_made_by, flags, compression_method, last_mod_time,
      last_mod_date, crc32v, compressed_size, uncompressed_size,
      file_name_raw, extra_field⟩, s)

/-- `read_zipfile_from_stream` (read.rs 1555-1638).  `utf8dec`/`cp437dec`
are the out-of-scope text decoders; `val` the ZipCrypto validator (unused
here because no password is ever passed, matching the source).  `.ok none`
is the end-of-entries case; the `.unwrap()` on the crypto reader is dead
for the same reason as in `by_index` and modelled as
`.error .invalidPassword`. -/
def read_zipfile_from_stream (utf8dec cp437dec : List Byte → String)
    (val : ZipCryptoValidator) (s : List Byte) :
    Except ZipErr (Option ZipFile) :=
  match readU32le s with
  | none => .error .ioErr
  | some (signature, s1) =>
    if signature = LOCAL_FILE_HEADER_SIGNATURE then
      match readLocalHeaderFields s1 with
      | none => .error .ioErr
      | some (h, rest) =>
        let encrypted := h.flags &&& 1 = 1
        let is_utf8 := h.flags &&& (1 <<< 11) ≠ 0
        let using_data_descriptor := h.flags &&& (1 <<< 3) ≠ 0
        let file_name :=
          if is_utf8 then utf8dec h.file_name_raw else cp437dec h.file_name_raw
        let result : ZipFileData :=
          { system := System.from_u8 (h.version_made_by / 256)
            version_made_by := h.version_made_by % 256
            encrypted := encrypted
            compression_method := CompressionMethod.from_u16 h.compression_method
            last_modified_time := DateTime.from_msdos h.last_mod_date h.last_mod_time
            crc32 := h.crc32
            compressed_size := h.compressed_size
            uncompressed_size := h.uncompressed_size
            file_name := file_name
            file_name_raw := h.file_name_raw
            file_comment := ""
            header_start := 0
            data_start := 0
            central_header_start := 0
            external_attributes := 0 }
        match parse_extra_field result h.extra_field with
        | (result, some .ioErr) | (result, none) =>
          if encrypted then
            .error (.unsupportedArchive ("Encrypted files are not supported"))
          else if using_data_descriptor then
            .error (.unsupportedArchive ("The file length is not available in the local header"))
          else
            let limit_reader := rest.take result.compressed_size
            match make_crypto_reader val result.compression_method
                result.crc32 limit_reader none with
            | .error e => .error e
            | .ok none => .error .invalidPassword
            | .ok (some crypto_reader) =>
              .ok (some ⟨result, none,
                make_reader result.compression_method result.crc32 crypto_reader⟩)
        | (_, some e) => .error e
    else if signature = CENTRAL_DIRECTORY_HEADER_SIGNATURE then
      .ok none
    else
      .error (.invalidArchive ("Invalid local file header"))

/-! ## `ZipFile::enclosed_name` (read.rs 1261-1276)

`std::path::Path::components()` on Unix (the build target): components are
the non-empty chunks between `/` separators; a leading `/` yields
`RootDir`; `..` is `ParentDir`; `.` is `CurDir` and is normalized away
unless it is the first chunk of a relative path; `Prefix` components exist
only on Windows and cannot occur here. -/

inductive Component where
  | root : Component
  | curDir : Component
  | parentDir : Component
  | normal : List Char → Component
deriving Repr, DecidableEq

/-- Split a character list at `/` separators (chunks may be empty). -/
def splitSlashes : List Char → List Char → List (List Char)
  | [], cur => [cur.reverse]
  | c :: cs, cur =>
    if c = '/' then cur.reverse :: splitSlashes cs []
    else splitSlashes cs (c :: cur)

/-- A single chunk as a path component. -/
def chunkToComponent (c : List Char) : Component :=
  if c = ['.', '.'] then .parentDir
  else if c = ['.'] then .curDir
  else .normal c

/-- `Path::new(s).components()` on Unix, as a list. -/
def componentsOf (s : String) : List Component :=
  let cs := s.data
  let chunks := (splitSlashes cs []).filter (fun c => c ≠ [])
  match cs with
  | '/' :: _ =>
    Component.root :: (chunks.filter (fun c => c ≠ ['.'])).map chunkToComponent
  | _ =>
    match chunks with
    | [] => []
    | c :: rest =>
      chunkToComponent c ::
        (rest.filter (fun c => c ≠ ['.'])).map chunkToComponent

/-- The component loop of `enclosed_name`: `Prefix`/`RootDir` aborts,
`ParentDir` is `depth.checked_sub(1)?`, `Normal` increments, `CurDir` is
skipped.  Returns the final depth, or `none` when the loop returns
`None`. -/
def checkDepth : List Component → Nat → Option Nat
  | [], depth => some depth
  | .root :: _, _ => none
  | .parentDir :: cs, depth =>
    match depth with
    | 0 => none
    | d + 1 => checkDepth cs d
  | .normal _ :: cs, depth => checkDepth cs (depth + 1)
  | .curDir :: cs, depth => checkDepth cs depth

/-- `ZipFile::enclosed_name` applied to the entry's `file_name`; on success
the source returns `Path::new(&self.data.file_name)` itself, i.e. the
unmodified name. -/
def enclosed_name (file_name : String) : Option String :=
  if file_name.data.contains (Char.ofNat 0) then none
  else
    match checkDepth (componentsOf file_name) 0 with
    | none => none
    | some _ => some file_name

/-- Spec-side running depth (claim C1): `+1` per normal component, `-1`
per parent-dir component, unchanged otherwise; `true` iff the depth would
go below zero at some point. -/
def goesBelowZero : List Component → Int → Bool
  | [], _ => false
  | .root :: cs, d => goesBelowZero cs d
  | .curDir :: cs, d => goesBelowZero cs d
  | .normal _ :: cs, d => goesBelowZero cs (d + 1)
  | .parentDir :: cs, d => decide (d - 1 < 0) || goesBelowZero cs (d - 1)

/-- Spec-side lexical resolution of a joined path: the stack of directory
names under the destination, with `..` popping the innermost name.  `none`
on a rooted component (never reached for enclosed names). -/
def resolvePath : List (List Char) → List Component → Option (List (List Char))
  | stack, [] => some stack
  | stack, .normal n :: cs => resolvePath (stack ++ [n]) cs
  | stack, .curDir :: cs => resolvePath stack cs
  | stack, .parentDir :: cs => resolvePath stack.dropLast cs
  | _, .root :: _ => none

/-! ## Spec-modelled collaborators used by concrete counterexamples -/

/-- One bit-step of the reflected CRC-32 (polynomial 0xEDB88320). -/
def crc32Bit (c : Nat) : Nat :=
  if c % 2 = 1 then (c / 2) ^^^ 0xEDB88320 else c / 2

/-- One byte-step: fold the byte in, then eight bit-steps. -/
def crc32Byte (c b : Nat) : Nat :=
  crc32Bit (crc32Bit (crc32Bit (crc32Bit (crc32Bit (crc32Bit (crc32Bit
    (crc32Bit (c ^^^ (b % 256)))))))))

/-- Modelled from the spec: CRC32 is an out-of-scope collaborator (spec §1:
incremental `update(bytes)` + `finalize()` over u32); this is the standard
ZIP CRC-32 (reflected, init and final xor 0xFFFFFFFF). -/
def crc32Of (bytes : List Byte) : Nat :=
  (bytes.foldl (fun c b => crc32Byte c b.val) 0xFFFFFFFF) ^^^ 0xFFFFFFFF

/-- Modelled from the spec: strict UTF-8 decoding of a byte list (used to
state that an extra-field payload "is valid UTF-8"); RFC 3629 ranges,
overlongs and surrogates rejected. -/
def utf8Decode : List Byte → Option (List Char)
  | [] => some []
  | b :: rest =>
    if b.val < 0x80 then
      (utf8Decode rest).map (fun cs => Char.ofNat b.val :: cs)
    else if 0xC2 ≤ b.val ∧ b.val ≤ 0xDF then
      match rest with
      | c :: rest2 =>
        if 0x80 ≤ c.val ∧ c.val ≤ 0xBF then
          (utf8Decode rest2).map
            (fun cs => Char.ofNat ((b.val - 0xC0) * 64 + (c.val - 0x80)) :: cs)
        else none
      | [] => none
    else if 0xE0 ≤ b.val ∧ b.val ≤ 0xEF then
      match rest with
      | c :: d :: rest2 =>
        let lo := if b.val = 0xE0 then 0xA0 else 0x80
        let hi := if b.val = 0xED then 0x9F else 0xBF
        if (lo ≤ c.val ∧ c.val ≤ hi) ∧ (0x80 ≤ d.val ∧ d.val ≤ 0xBF) then
          (utf8Decode rest2).map (fun cs =>
            Char.ofNat ((b.val - 0xE0) * 4096 + (c.val - 0x80) * 64 +
              (d.val - 0x80)) :: cs)
        else none
      | _ => none
    else if 0xF0 ≤ b.val ∧ b.val ≤ 0xF4 then
      match rest with
      | c :: d :: e :: rest2 =>
        let lo := if b.val = 0xF0 then 0x90 else 0x80
        let hi := if b.val = 0xF4 then 0x8F else 0xBF
        if (lo ≤ c.val ∧ c.val ≤ hi) ∧ (0x80 ≤ d.val ∧ d.val ≤ 0xBF) ∧
            (0x80 ≤ e.val ∧ e.val ≤ 0xBF) then
          (utf8Decode rest2).map (fun cs =>
            Char.ofNat ((b.val - 0xF0) * 262144 + (c.val - 0x80) * 4096 +
              (d.val - 0x80) * 64 + (e.val - 0x80)) :: cs)
        else none
      | _ => none
    else none

/-- A concrete text decoder instance (each byte to its code point), used
only to instantiate the decoder parameters of witnesses and
counterexamples; the claims settled at concrete inputs do not depend on
the decoded text. -/
def byteDecode (bs : List Byte) : String := String.mk (bs.map (fun b => Char.ofNat b.val))

/-- A concrete ZipCrypto validator instance for witnesses: consumes the
12-byte password check and accepts. -/
def acceptValidator : ZipCryptoValidator := fun _ w _ => .ok (some (w.drop 12))

/-- Little-endian byte encoding of `v` on `n` bytes (for building concrete
extra-field blobs). -/
def toLE : Nat → Nat → List Byte
  | 0, _ => []
  | n + 1, v => ⟨v % 256, Nat.mod_lt v (by norm_num)⟩ :: toLE n (v / 256)

/-! ## Concrete fixtures for witnesses and counterexamples -/

/-- A minimal source: one local file header (no name, no extra field in the
local header) followed by three data bytes at offset 30. -/
def sampleSource : List Byte :=
  [0x50, 0x4b, 0x03, 0x04] ++ List.replicate 22 0 ++ [0, 0, 0, 0] ++ [97, 98, 99]

/-- An unencrypted stored entry over `sampleSource`. -/
def sampleEntry : ZipFileData :=
  { system := .dos, version_made_by := 20, encrypted := false,
    compression_method := .stored, last_modified_time := ⟨0, 0⟩,
    crc32 := 0x352441C2, compressed_size := 3, uncompressed_size := 3,
    file_name := "a.txt", file_name_raw := [97, 46, 116, 120, 116],
    file_comment := "", header_start := 0, central_header_start := 40,
    data_start := 0, external_attributes := 0 }

/-- An encrypted variant of `sampleEntry`. -/
def sampleEncryptedEntry : ZipFileData :=
  { sampleEntry with
    encrypted := true
    file_name := "b.txt"
    file_name_raw := [98, 46, 116, 120, 116]
    central_header_start := 90 }

/-- A two-entry archive over `sampleSource`. -/
def sampleArchive : ZipArchive :=
  { reader := sampleSource,
    files := [sampleEntry, sampleEncryptedEntry],
    names_map := [("a.txt", 0), ("b.txt", 1)],
    offset := 0, comment := [] }

/-- Entry whose raw name is `"a"` (CRC32 0xE8B7BE43). -/
def c2entry : ZipFileData :=
  { sampleEntry with file_name := "a", file_name_raw := [97] }

/-- An extra-field blob holding one 0x7075 (Info-ZIP UTF-8 path) record:
version 1, name-crc32 0xE8B7BE43 (the CRC32 of `"a"`), payload `"b"`. -/
def c2extra : List Byte := [0x75, 0x70, 6, 0, 1, 0x43, 0xBE, 0xB7, 0xE8, 0x62]

/-- A central directory header whose compressed_size is the ZIP64 sentinel
0xFFFFFFFF and whose extra field is empty. -/
def c3header : List Byte :=
  [0x50, 0x4b, 0x01, 0x02] ++ List.replicate 16 0 ++
  [0xFF, 0xFF, 0xFF, 0xFF] ++ List.replicate 22 0

/-- The entry `central_header_to_zip_file` builds from `c3header`. -/
def c3entry : ZipFileData :=
  { system := .dos, version_made_by := 0, encrypted := false,
    compression_method := .stored, last_modified_time := ⟨0, 0⟩,
    crc32 := 0, compressed_size := 0xFFFFFFFF, uncompressed_size := 0,
    file_name := "", file_name_raw := [], file_comment := "",
    header_start := 0, central_header_start := 0, data_start := 0,
    external_attributes := 0 }

/-- Entry with the uncompressed-size sentinel set. -/
def c4entry : ZipFileData :=
  { sampleEntry with uncompressed_size := 0xFFFFFFFF }

/-- A ZIP64 record declaring `len = 0` although the sentinel in `c4entry`
makes the processing consume 8 payload bytes. -/
def c4extra : List Byte := [1, 0, 0, 0, 1, 0, 0, 0, 0, 0, 0, 0]

/-- Entry with all three ZIP64 sentinels set (for the C3 witness). -/
def zip64SentinelEntry : ZipFileData :=
  { sampleEntry with
    uncompressed_size := 0xFFFFFFFF
    compressed_size := 0xFFFFFFFF
    header_start := 0xFFFFFFFF }

/-- The 30 bytes of a local file header with empty name and extra field. -/
def plainLocalHeader : List Byte :=
  [0x50, 0x4b, 0x03, 0x04] ++ List.replicate 26 0

/-- A source whose local file header sits at offset `2 ^ 64 - 1`: opening
an entry with that `header_start` wraps the u64 computation of
`data_start`. -/
def c7source : List Byte := List.replicate (2 ^ 64 - 1) 0 ++ plainLocalHeader

/-- The entry used against `c7source`. -/
def c7entry : ZipFileData :=
  { sampleEntry with header_start := 2 ^ 64 - 1, compressed_size := 0 }

/-- The number of payload bytes the kind-specific processing of one
extra-field record consumes: for the ZIP64 kind (0x0001), 8 bytes per
field currently equal to the sentinel `0xFFFFFFFF`; 0 for every other
kind. -/
def recordConsumed (kind : Nat) (file : ZipFileData) : Nat :=
  if kind = 1 then
    (if file.uncompressed_size = 0xFFFFFFFF then 8 else 0) +
    (if file.compressed_size = 0xFFFFFFFF then 8 else 0) +
    (if file.header_start = 0xFFFFFFFF then 8 else 0)
  else 0

/-- The sequence of record kinds an extra-field blob declares, reading
each `(kind, len)` pair and hopping `len` bytes forward — the positions the
extra-field walk visits for records it does not process.  `none` when a
`(kind, len)` read runs off the blob.  `1 ∉ extraFieldKinds …` is the
blob-level statement "the entry has no ZIP64 (0x0001) record". -/
def extraFieldKinds (fuel : Nat) (data : List Byte) (pos : Nat) :
    Option (List Nat) :=
  match fuel with
  | 0 => some []
  | fuel + 1 =>
    if pos < data.length then
      match readU16At data pos, readU16At data (pos + 2) with
      | some kind, some len =>
        (extraFieldKinds fuel data (pos + 4 + len)).map (fun ks => kind :: ks)
      | _, _ => none
    else some []

/-- A well-formed ZIP64 (0x0001) extra-field record for `file`: kind 1,
declared length `recordConsumed 1 file + tail.length`, one little-endian
u64 (`a`, `b`, `c` respectively) for each field of `file` currently equal
to the sentinel `0xFFFFFFFF` — in the source's fixed order uncompressed
size, compressed size, header offset — then `tail` further payload bytes
inside the record (e.g. the disk-start u32 of a canonical 28-byte record),
followed by `sfx`, the rest of the extra-field blob. -/
def zip64RecordBlob (file : ZipFileData) (a b c : Nat)
    (tail sfx : List Byte) : List Byte :=
  [1, 0] ++ (toLE 2 (recordConsumed 1 file + tail.length) ++
    (((if file.uncompressed_size = 0xFFFFFFFF then toLE 8 a else []) ++
      ((if file.compressed_size = 0xFFFFFFFF then toLE 8 b else []) ++
       (if file.header_start = 0xFFFFFFFF then toLE 8 c else []))) ++
     (tail ++ sfx)))

/-! # Theorems

Shared helper lemmas first, then one theorem per claim (with witnesses for
theorems that carry hypotheses, and counterexamples for corrected claims). -/

theorem readU16At_le (s : List Byte) (i v : Nat) (h : readU16At s i = some v) :
    v ≤ 65535 := by
  unfold readU16At at h
  split at h
  · rename_i a b _ _
    injection h with h
    have := a.isLt
    have := b.isLt
    omega
  · exact absurd h (by simp)

theorem checkDepth_none_iff (cs : List Component) (d : Nat) :
    checkDepth cs d = none ↔
      (Component.root ∈ cs ∨ goesBelowZero cs (d : Int) = true) := by
  induction cs generalizing d with
  | nil => simp [checkDepth, goesBelowZero]
  | cons c cs ih =>
    cases c with
    | root => simp [checkDepth, goesBelowZero]
    | curDir => simpa [checkDepth, goesBelowZero] using ih d
    | normal n =>
      have := ih (d + 1)
      simp only [checkDepth, goesBelowZero]
      push_cast at this ⊢
      simpa using this
    | parentDir =>
      cases d with
      | zero => simp [checkDepth, goesBelowZero]
      | succ d =>
        have hcast : ((d + 1 : Nat) : Int) - 1 = (d : Int) := by push_cast; ring
        have h1 : checkDepth (Component.parentDir :: cs) (d + 1) = checkDepth cs d := rfl
        rw [h1, ih d]
        simp only [goesBelowZero, hcast, List.mem_cons]
        rw [decide_eq_false (show ¬ ((d : Int) < 0) by omega), Bool.false_or]
        simp

theorem resolvePath_extends (cs : List Component) :
    ∀ (d r : Nat) (base extra : List (List Char)), extra.length = d →
      checkDepth cs d = some r →
      ∃ t : List (List Char), t.length = r ∧
        resolvePath (base ++ extra) cs = some (base ++ t) := by
  induction cs with
  | nil =>
    intro d r base extra hlen h
    refine ⟨extra, ?_, ?_⟩
    · injection h with h
      omega
    · simp [resolvePath]
  | cons c cs ih =>
    intro d r base extra hlen h
    cases c with
    | root => exact absurd h (by simp [checkDepth])
    | curDir => exact ih d r base extra hlen h
    | normal n =>
      have h' : checkDepth cs (d + 1) = some r := h
      obtain ⟨t, ht, hres⟩ := ih (d + 1) r base (extra ++ [n]) (by simp [hlen]) h'
      refine ⟨t, ht, ?_⟩
      simpa [resolvePath, List.append_assoc] using hres
    | parentDir =>
      cases d with
      | zero => exact absurd h (by simp [checkDepth])
      | succ d =>
        have h' : checkDepth cs d = some r := h
        have hne : extra ≠ [] := by
          intro he
          rw [he] at hlen
          simp at hlen
        obtain ⟨t, ht, hres⟩ :=
          ih d r base extra.dropLast (by simp [hlen]) h'
        refine ⟨t, ht, ?_⟩
        have hdl : (base ++ extra).dropLast = base ++ extra.dropLast := by
          rw [List.dropLast_append]
          simp [List.isEmpty_iff, hne]
        simpa [resolvePath, hdl] using hres

/-- Claim C1: `enclosed_name` returns `None` exactly when the name
contains a NUL byte, has a root (or, on Windows, prefix) component, or the
running depth (+1 normal, -1 parent-dir, 0 current-dir) would go below
zero; otherwise it returns the unmodified path, and resolving that path
under any destination directory stays inside the destination (the
resolved stack keeps the destination as a prefix). -/
theorem enclosed_name_characterization (fn : String) :
    (enclosed_name fn = none ↔
      (fn.data.contains (Char.ofNat 0) = true ∨
       Component.root ∈ componentsOf fn ∨
       goesBelowZero (componentsOf fn) 0 = true))
    ∧ (∀ p, enclosed_name fn = some p → p = fn ∧
        ∀ dir : List (List Char), ∃ t : List (List Char),
          resolvePath dir (componentsOf p) = some (dir ++ t)) := by
  constructor
  · unfold enclosed_name
    split
    · rename_i hnul
      exact iff_of_true rfl (Or.inl hnul)
    · rename_i hnul
      have hiff := checkDepth_none_iff (componentsOf fn) 0
      push_cast at hiff
      split
      · rename_i hchk
        refine iff_of_true rfl ?_
        rcases hiff.mp hchk with h | h
        · exact Or.inr (Or.inl h)
        · exact Or.inr (Or.inr h)
      · rename_i v hchk
        refine iff_of_false (by simp) ?_
        rintro (h | h | h)
        · exact hnul h
        · rw [hiff.mpr (Or.inl h)] at hchk
          cases hchk
        · rw [hiff.mpr (Or.inr h)] at hchk
          cases hchk
  · intro p hp
    unfold enclosed_name at hp
    split at hp
    · cases hp
    · split at hp
      · cases hp
      · rename_i r hchk
        injection hp with hp
        subst hp
        refine ⟨rfl, ?_⟩
        intro dir
        obtain ⟨t, _, hres⟩ :=
          resolvePath_extends (componentsOf fn) 0 r dir [] rfl hchk
        exact ⟨t, by simpa using hres⟩

theorem enclosed_name_characterization_witness :
    enclosed_name ("foo/../bar") = some ("foo/../bar") ∧
    ∃ t : List (List Char),
      resolvePath [['t', 'm', 'p']] (componentsOf ("foo/../bar")) =
        some ([['t', 'm', 'p']] ++ t) := by
  have h := (enclosed_name_characterization ("foo/../bar")).2
    ("foo/../bar") (by decide)
  exact ⟨by decide, h.2 [['t', 'm', 'p']]⟩

theorem pefZip64Header_names (file : ZipFileData) (data : List Byte)
    (p c : Nat) (f : ZipFileData) (c' : Nat) (err : Option ZipErr)
    (h : pefZip64Header file data p c = ((f, c'), err)) :
    f.file_name = file.file_name ∧ f.file_name_raw = file.file_name_raw := by
  unfold pefZip64Header at h
  split at h
  · split at h
    · injection h with h1 h3
      injection h1 with h2 h4
      subst h2
      exact ⟨rfl, rfl⟩
    · injection h with h1 h3
      injection h1 with h2 h4
      subst h2
      exact ⟨rfl, rfl⟩
  · injection h with h1 h3
    injection h1 with h2 h4
    subst h2
    exact ⟨rfl, rfl⟩

theorem pefZip64Compressed_names (file : ZipFileData) (data : List Byte)
    (p c : Nat) (f : ZipFileData) (c' : Nat) (err : Option ZipErr)
    (h : pefZip64Compressed file data p c = ((f, c'), err)) :
    f.file_name = file.file_name ∧ f.file_name_raw = file.file_name_raw := by
  unfold pefZip64Compressed at h
  split at h
  · split at h
    · injection h with h1 h3
      injection h1 with h2 h4
      subst h2
      exact ⟨rfl, rfl⟩
    · have h2 := pefZip64Header_names _ _ _ _ _ _ _ h
      exact h2
  · have h2 := pefZip64Header_names _ _ _ _ _ _ _ h
    exact h2

theorem pefZip64Uncompressed_names (file : ZipFileData) (data : List Byte)
    (p : Nat) (f : ZipFileData) (c' : Nat) (err : Option ZipErr)
    (h : pefZip64Uncompressed file data p = ((f, c'), err)) :
    f.file_name = file.file_name ∧ f.file_name_raw = file.file_name_raw := by
  unfold pefZip64Uncompressed at h
  split at h
  · split at h
    · injection h with h1 h3
      injection h1 with h2 h4
      subst h2
      exact ⟨rfl, rfl⟩
    · have h2 := pefZip64Compressed_names _ _ _ _ _ _ _ h
      exact h2
  · have h2 := pefZip64Compressed_names _ _ _ _ _ _ _ h
    exact h2

theorem pefStep_names (file : ZipFileData) (data : List Byte) (pos : Nat)
    (f : ZipFileData) (p : Nat) (err : Option ZipErr)
    (h : pefStep file data pos = ((f, p), err)) :
    f.file_name = file.file_name ∧ f.file_name_raw = file.file_name_raw := by
  unfold pefStep at h
  split at h
  · injection h with h1 h3
    injection h1 with h2 h4
    subst h2
    exact ⟨rfl, rfl⟩
  · split at h
    · injection h with h1 h3
      injection h1 with h2 h4
      subst h2
      exact ⟨rfl, rfl⟩
    · split at h
      · rename_i f1 c1 e1 heq
        injection h with h1 h3
        injection h1 with h2 h4
        subst h2
        split at heq
        · exact pefZip64Uncompressed_names _ _ _ _ _ _ heq
        · injection heq with h5 h6
          injection h5 with h7 h8
          subst h7
          exact ⟨rfl, rfl⟩
      · rename_i f1 c1 heq
        have hf : f1.file_name = file.file_name ∧
            f1.file_name_raw = file.file_name_raw := by
          split at heq
          · exact pefZip64Uncompressed_names _ _ _ _ _ _ heq
          · injection heq with h5 h6
            injection h5 with h7 h8
            subst h7
            exact ⟨rfl, rfl⟩
        dsimp only at h
        split at h <;>
          (injection h with h1 h3; injection h1 with h2 h4; subst h2; exact hf)

theorem pefLoop_names (fuel : Nat) (data : List Byte) :
    ∀ (file : ZipFileData) (pos : Nat) (f : ZipFileData) (err : Option ZipErr),
      pefLoop fuel data file pos = (f, err) →
      f.file_name = file.file_name ∧ f.file_name_raw = file.file_name_raw := by
  induction fuel with
  | zero =>
    intro file pos f err h
    injection h with h1 h2
    subst h1
    exact ⟨rfl, rfl⟩
  | succ fuel ih =>
    intro file pos f err h
    unfold pefLoop at h
    split at h
    · split at h
      · rename_i f1 p1 e1 heq
        injection h with h1 h2
        subst h1
        exact pefStep_names _ _ _ _ _ _ heq
      · rename_i f1 p1 heq
        have h1 := ih f1 p1 f err h
        have h2 := pefStep_names _ _ _ _ _ _ heq
        exact ⟨h1.1.trans h2.1, h1.2.trans h2.2⟩
    · injection h with h1 h2
      subst h1
      exact ⟨rfl, rfl⟩

/-- Claim C2 (amended): the extra-field walk does not interpret 0x7075
records — only the ZIP64 (0x0001) kind is processed, every other record is
skipped — so `file_name` (and the raw name) is never modified by
`parse_extra_field`, whatever the extra field contains. -/
theorem parse_extra_field_preserves_file_name (file : ZipFileData)
    (data : List Byte) :
    (parse_extra_field file data).1.file_name = file.file_name ∧
    (parse_extra_field file data).1.file_name_raw = file.file_name_raw := by
  exact pefLoop_names _ _ _ _ _ _ rfl

/-- Claim C2, counterexample: a well-formed 0x7075 record (version 1,
name-crc32 equal to the CRC32 of the raw name `"a"`, payload the valid
UTF-8 encoding of `"b"`) does not replace `file_name`: the walk returns
the entry unchanged, so `file_names()` would still yield `"a"`, not
`"b"`. -/
theorem utf8_path_record_ignored :
    parse_extra_field c2entry c2extra = (c2entry, none) ∧
    readU16At c2extra 0 = some 0x7075 ∧
    readU16At c2extra 2 = some 6 ∧
    c2extra[4]? = some 1 ∧
    readU32At c2extra 5 = some 0xE8B7BE43 ∧
    crc32Of c2entry.file_name_raw = 0xE8B7BE43 ∧
    c2extra.drop 9 = [0x62] ∧
    utf8Decode [0x62] = some ['b'] ∧
    String.mk ['b'] = "b" ∧
    c2entry.file_name = "a" ∧
    ("a" : String) ≠ "b" := by
  decide

theorem pefZip64Header_consumed (file : ZipFileData) (data : List Byte)
    (p c : Nat) (f : ZipFileData) (c' : Nat)
    (h : pefZip64Header file data p c = ((f, c'), none)) :
    c' = c + (if file.header_start = 0xFFFFFFFF then 8 else 0) := by
  unfold pefZip64Header at h
  split at h
  · rename_i hsent
    split at h
    · simp at h
    · simp only [Prod.mk.injEq] at h
      rw [if_pos hsent]
      omega
  · rename_i hsent
    simp only [Prod.mk.injEq] at h
    rw [if_neg hsent]
    omega

theorem pefZip64Compressed_consumed (file : ZipFileData) (data : List Byte)
    (p c : Nat) (f : ZipFileData) (c' : Nat)
    (h : pefZip64Compressed file data p c = ((f, c'), none)) :
    c' = c + (if file.compressed_size = 0xFFFFFFFF then 8 else 0) +
      (if file.header_start = 0xFFFFFFFF then 8 else 0) := by
  unfold pefZip64Compressed at h
  split at h
  · rename_i hsent
    split at h
    · simp at h
    · have h2 := pefZip64Header_consumed _ _ _ _ _ _ h
      rw [if_pos hsent]
      by_cases hh : file.header_start = 0xFFFFFFFF <;>
        simp [hh] at h2 ⊢ <;> omega
  · rename_i hsent
    have h2 := pefZip64Header_consumed _ _ _ _ _ _ h
    rw [if_neg hsent]
    by_cases hh : file.header_start = 0xFFFFFFFF <;>
      simp [hh] at h2 ⊢ <;> omega

theorem pefZip64Uncompressed_consumed (file : ZipFileData) (data : List Byte)
    (p : Nat) (f : ZipFileData) (c' : Nat)
    (h : pefZip64Uncompressed file data p = ((f, c'), none)) :
    c' = (if file.uncompressed_size = 0xFFFFFFFF then 8 else 0) +
      (if file.compressed_size = 0xFFFFFFFF then 8 else 0) +
      (if file.header_start = 0xFFFFFFFF then 8 else 0) := by
  unfold pefZip64Uncompressed at h
  split at h
  · rename_i hsent
    split at h
    · simp at h
    · have h2 := pefZip64Compressed_consumed _ _ _ _ _ _ h
      rw [if_pos hsent]
      by_cases h3 : file.compressed_size = 0xFFFFFFFF <;>
        by_cases h4 : file.header_start = 0xFFFFFFFF <;>
          simp [h3, h4] at h2 ⊢ <;> omega
  · rename_i hsent
    have h2 := pefZip64Compressed_consumed _ _ _ _ _ _ h
    rw [if_neg hsent]
    by_cases h3 : file.compressed_size = 0xFFFFFFFF <;>
      by_cases h4 : file.header_start = 0xFFFFFFFF <;>
        simp [h3, h4] at h2 ⊢ <;> omega

/-- Claim C4 (amended): after reading `(kind, len)` at `pos`, the next
record is read at `pos + 4 + max len consumed`, where `consumed =
recordConsumed kind file`.  So the walk advances exactly `len` bytes past
the pair whenever the kind-specific processing consumed at most `len`
bytes; when ZIP64 processing consumes more than `len`, the cursor is left
after the consumed bytes and is not rewound. -/
theorem pefStep_advance (file : ZipFileData) (data : List Byte)
    (pos kind len : Nat) (f : ZipFileData) (p : Nat)
    (hk : readU16At data pos = some kind)
    (hl : readU16At data (pos + 2) = some len)
    (h : pefStep file data pos = ((f, p), none)) :
    p = pos + 4 + max len (recordConsumed kind file) := by
  unfold pefStep at h
  rw [hk] at h
  dsimp only at h
  rw [hl] at h
  dsimp only at h
  by_cases hkind : kind = 1
  · rw [if_pos hkind] at h
    rcases he : pefZip64Uncompressed file data (pos + 4) with ⟨⟨f1, c1⟩, err⟩
    rw [he] at h
    cases err with
    | some e => simp at h
    | none =>
      have hc := pefZip64Uncompressed_consumed _ _ _ _ _ he
      rw [recordConsumed, if_pos hkind, ← hc]
      dsimp only at h
      split at h
      · rename_i hpos
        simp only [Prod.mk.injEq] at h
        have hlt : c1 < len := by omega
        rw [Nat.max_eq_left (Nat.le_of_lt hlt)]
        omega
      · rename_i hpos
        simp only [Prod.mk.injEq] at h
        have hge : len ≤ c1 := by omega
        rw [Nat.max_eq_right hge]
        omega
  · rw [if_neg hkind] at h
    rw [recordConsumed, if_neg hkind, Nat.max_eq_left (Nat.zero_le len)]
    dsimp only at h
    split at h
    · rename_i hpos
      simp only [Prod.mk.injEq] at h
      omega
    · rename_i hpos
      simp only [Prod.mk.injEq] at h
      omega

theorem pefStep_advance_witness :
    readU16At ([2, 0, 3, 0, 9, 9, 9] : List Byte) 0 = some 2 ∧
    readU16At ([2, 0, 3, 0, 9, 9, 9] : List Byte) 2 = some 3 ∧
    pefStep sampleEntry ([2, 0, 3, 0, 9, 9, 9] : List Byte) 0 =
      ((sampleEntry, 7), none) ∧
    7 = 0 + 4 + max 3 (recordConsumed 2 sampleEntry) :=
  ⟨by decide, by decide, by decide,
    pefStep_advance sampleEntry ([2, 0, 3, 0, 9, 9, 9] : List Byte) 0 2 3
      sampleEntry 7 (by decide) (by decide) (by decide)⟩

/-- Claim C4, counterexample: a ZIP64 record declaring `len = 0` while the
entry's uncompressed-size sentinel makes the processing consume 8 payload
bytes.  The claim requires the next record to be read at
`pos + 4 + len = 4`; the code continues at position 12. -/
theorem extra_field_over_advance :
    readU16At c4extra 0 = some 1 ∧
    readU16At c4extra 2 = some 0 ∧
    pefStep c4entry c4extra 0 =
      (({ c4entry with uncompressed_size := 1 }, 12), none) ∧
    (12 : Nat) ≠ 0 + 4 + 0 := by
  decide

theorem toLE_length (n v : Nat) : (toLE n v).length = n := by
  induction n generalizing v with
  | zero => rfl
  | succ n ih => simp [toLE, ih]

theorem getElem?_toLE_val (n v : Nat) (rest : List Byte) (i : Nat) (h : i < n) :
    ((toLE n v ++ rest)[i]?).map Fin.val = some (v / 256 ^ i % 256) := by
  induction n generalizing v i with
  | zero => omega
  | succ n ih =>
    cases i with
    | zero => simp [toLE]
    | succ i =>
      have hrec := ih (v / 256) i (by omega)
      simp only [toLE, List.cons_append, List.getElem?_cons_succ, hrec,
        Option.some.injEq]
      rw [Nat.div_div_eq_div_mul, pow_succ, mul_comm (256 ^ i) 256]

theorem readU16At_of (s : List Byte) (i : Nat) (b0 b1 : Byte)
    (h0 : s[i]? = some b0) (h1 : s[i+1]? = some b1) :
    readU16At s i = some (b0.val + 256 * b1.val) := by
  unfold readU16At
  rw [h0, h1]

theorem readU32At_of (s : List Byte) (i : Nat) (a b : Nat)
    (h0 : readU16At s i = some a) (h1 : readU16At s (i+2) = some b) :
    readU32At s i = some (a + 65536 * b) := by
  unfold readU32At
  rw [h0, h1]

theorem readU64At_of (s : List Byte) (i : Nat) (a b : Nat)
    (h0 : readU32At s i = some a) (h1 : readU32At s (i+4) = some b) :
    readU64At s i = some (a + 4294967296 * b) := by
  unfold readU64At
  rw [h0, h1]

theorem readU64At_toLE (pre : List Byte) (v : Nat) (rest : List Byte) :
    readU64At (pre ++ (toLE 8 v ++ rest)) pre.length = some (v % 2 ^ 64) := by
  have hx : ∀ j, j < 8 → ∃ bb : Byte,
      (pre ++ (toLE 8 v ++ rest))[pre.length + j]? = some bb ∧
      bb.val = v / 256 ^ j % 256 := by
    intro j hjlt
    have hv := getElem?_toLE_val 8 v rest j hjlt
    have hidx : (pre ++ (toLE 8 v ++ rest))[pre.length + j]? =
        (toLE 8 v ++ rest)[j]? := by
      rw [List.getElem?_append,
        if_neg (by omega : ¬ (pre.length + j < pre.length)),
        Nat.add_sub_cancel_left]
    obtain ⟨bb, hbb, hval⟩ := Option.map_eq_some'.mp hv
    exact ⟨bb, by rw [hidx, hbb], hval⟩
  obtain ⟨b0, hb0, hv0⟩ := hx 0 (by norm_num)
  obtain ⟨b1, hb1, hv1⟩ := hx 1 (by norm_num)
  obtain ⟨b2, hb2, hv2⟩ := hx 2 (by norm_num)
  obtain ⟨b3, hb3, hv3⟩ := hx 3 (by norm_num)
  obtain ⟨b4, hb4, hv4⟩ := hx 4 (by norm_num)
  obtain ⟨b5, hb5, hv5⟩ := hx 5 (by norm_num)
  obtain ⟨b6, hb6, hv6⟩ := hx 6 (by norm_num)
  obtain ⟨b7, hb7, hv7⟩ := hx 7 (by norm_num)
  have e0 : (pre ++ (toLE 8 v ++ rest))[pre.length]? = some b0 := by
    rw [← Nat.add_zero pre.length]
    exact hb0
  have e3 : (pre ++ (toLE 8 v ++ rest))[pre.length + 2 + 1]? = some b3 := by
    rw [show pre.length + 2 + 1 = pre.length + 3 by omega]
    exact hb3
  have e5 : (pre ++ (toLE 8 v ++ rest))[pre.length + 4 + 1]? = some b5 := by
    rw [show pre.length + 4 + 1 = pre.length + 5 by omega]
    exact hb5
  have e6 : (pre ++ (toLE 8 v ++ rest))[pre.length + 4 + 2]? = some b6 := by
    rw [show pre.length + 4 + 2 = pre.length + 6 by omega]
    exact hb6
  have e7 : (pre ++ (toLE 8 v ++ rest))[pre.length + 4 + 2 + 1]? = some b7 := by
    rw [show pre.length + 4 + 2 + 1 = pre.length + 7 by omega]
    exact hb7
  have r0 := readU16At_of _ _ _ _ e0 hb1
  have r2 := readU16At_of _ _ _ _ hb2 e3
  have r4 := readU16At_of _ _ _ _ hb4 e5
  have r6 := readU16At_of _ _ _ _ e6 e7
  have u0 := readU32At_of _ _ _ _ r0 r2
  have u4 := readU32At_of _ _ _ _ r4 r6
  have u := readU64At_of _ _ _ _ u0 u4
  rw [u, hv0, hv1, hv2, hv3, hv4, hv5, hv6, hv7]
  clear u u0 u4 r0 r2 r4 r6 e0 e3 e5 e6 e7 hb0 hb1 hb2 hb3 hb4 hb5 hb6 hb7
  clear hv0 hv1 hv2 hv3 hv4 hv5 hv6 hv7 hx b0 b1 b2 b3 b4 b5 b6 b7
  simp only [Option.some.injEq]
  have p0 : (256 : Nat) ^ 0 = 1 := by norm_num
  have p1 : (256 : Nat) ^ 1 = 256 := by norm_num
  have p2 : (256 : Nat) ^ 2 = 65536 := by norm_num
  have p3 : (256 : Nat) ^ 3 = 16777216 := by norm_num
  have p4 : (256 : Nat) ^ 4 = 4294967296 := by norm_num
  have p5 : (256 : Nat) ^ 5 = 1099511627776 := by norm_num
  have p6 : (256 : Nat) ^ 6 = 281474976710656 := by norm_num
  have p7 : (256 : Nat) ^ 7 = 72057594037927936 := by norm_num
  rw [p0, p1, p2, p3, p4, p5, p6, p7]
  omega

theorem pefLoop_succ_lt (fuel : Nat) (data : List Byte) (file : ZipFileData)
    (pos : Nat) (h : pos < data.length) (f : ZipFileData) (p : Nat)
    (hstep : pefStep file data pos = ((f, p), none)) :
    pefLoop (fuel + 1) data file pos = pefLoop fuel data f p := by
  have hdef : pefLoop (fuel + 1) data file pos =
      if pos < data.length then
        match pefStep file data pos with
        | ((f0, _), some e) => (f0, some e)
        | ((f0, p0), none) => pefLoop fuel data f0 p0
      else (file, none) := rfl
  rw [hdef, if_pos h, hstep]

theorem pefLoop_at_end (fuel : Nat) (data : List Byte) (file : ZipFileData)
    (pos : Nat) (h : ¬ pos < data.length) :
    pefLoop fuel data file pos = (file, none) := by
  cases fuel <;> simp [pefLoop, h]

theorem readU64At_at (s pre : List Byte) (v : Nat) (rest : List Byte)
    (i : Nat) (hs : s = pre ++ (toLE 8 v ++ rest)) (hi : i = pre.length)
    (hv : v < 2 ^ 64) : readU64At s i = some v := by
  subst hs
  subst hi
  have h := readU64At_toLE pre v rest
  rwa [Nat.mod_eq_of_lt hv] at h

theorem readU16At_toLE (pre : List Byte) (v : Nat) (rest : List Byte) :
    readU16At (pre ++ (toLE 2 v ++ rest)) pre.length = some (v % 65536) := by
  have hx : ∀ j, j < 2 → ∃ bb : Byte,
      (pre ++ (toLE 2 v ++ rest))[pre.length + j]? = some bb ∧
      bb.val = v / 256 ^ j % 256 := by
    intro j hjlt
    have hv := getElem?_toLE_val 2 v rest j hjlt
    have hidx : (pre ++ (toLE 2 v ++ rest))[pre.length + j]? =
        (toLE 2 v ++ rest)[j]? := by
      rw [List.getElem?_append,
        if_neg (by omega : ¬ (pre.length + j < pre.length)),
        Nat.add_sub_cancel_left]
    obtain ⟨bb, hbb, hval⟩ := Option.map_eq_some'.mp hv
    exact ⟨bb, by rw [hidx, hbb], hval⟩
  obtain ⟨b0, hb0, hv0⟩ := hx 0 (by norm_num)
  obtain ⟨b1, hb1, hv1⟩ := hx 1 (by norm_num)
  have e0 : (pre ++ (toLE 2 v ++ rest))[pre.length]? = some b0 := by
    rw [← Nat.add_zero pre.length]
    exact hb0
  have r := readU16At_of _ _ _ _ e0 hb1
  rw [r, hv0, hv1]
  simp only [Option.some.injEq]
  have p0 : (256 : Nat) ^ 0 = 1 := by norm_num
  have p1 : (256 : Nat) ^ 1 = 256 := by norm_num
  rw [p0, p1]
  omega

theorem pefStep_non_zip64 (file : ZipFileData) (data : List Byte)
    (pos kind len : Nat) (hk : readU16At data pos = some kind)
    (hl : readU16At data (pos + 2) = some len) (hne : kind ≠ 1) :
    pefStep file data pos = ((file, pos + 4 + len), none) := by
  unfold pefStep
  rw [hk]
  dsimp only
  rw [hl]
  dsimp only
  rw [if_neg hne]
  dsimp only
  split
  · refine congrArg (fun x => ((file, x), none)) ?_
    omega
  · rename_i hge
    refine congrArg (fun x => ((file, x), none)) ?_
    omega

theorem pefStep_of_zip64 (file : ZipFileData) (data : List Byte) (len : Nat)
    (f' : ZipFileData) (c' : Nat)
    (hk : readU16At data 0 = some 1) (hl : readU16At data 2 = some len)
    (hz : pefZip64Uncompressed file data 4 = ((f', c'), none))
    (hcl : c' ≤ len) :
    pefStep file data 0 = ((f', 4 + len), none) := by
  unfold pefStep
  simp only [Nat.zero_add]
  rw [hk]
  dsimp only
  rw [hl]
  dsimp only
  rw [if_pos rfl, hz]
  dsimp only
  split
  · refine congrArg (fun x => ((f', x), none)) ?_
    omega
  · rename_i hge
    refine congrArg (fun x => ((f', x), none)) ?_
    omega

theorem pefLoop_no_zip64 (fuelL fuelK : Nat) (hKL : fuelL ≤ fuelK)
    (data : List Byte) (file : ZipFileData) (pos : Nat) (ks : List Nat)
    (hk : extraFieldKinds fuelK data pos = some ks) (hno : 1 ∉ ks) :
    pefLoop fuelL data file pos = (file, none) := by
  induction fuelL generalizing fuelK file pos ks with
  | zero => rfl
  | succ fuelL ih =>
    by_cases hpos : pos < data.length
    · cases fuelK with
      | zero => omega
      | succ fuelK =>
        have hdef : extraFieldKinds (fuelK + 1) data pos =
            if pos < data.length then
              match readU16At data pos, readU16At data (pos + 2) with
              | some kind, some len =>
                (extraFieldKinds fuelK data (pos + 4 + len)).map
                  (fun ks => kind :: ks)
              | _, _ => none
            else some [] := rfl
        rw [hdef, if_pos hpos] at hk
        rcases e1 : readU16At data pos with _ | kind
        · rw [e1] at hk
          simp at hk
        rcases e2 : readU16At data (pos + 2) with _ | len
        · rw [e1, e2] at hk
          simp at hk
        rw [e1, e2] at hk
        dsimp only at hk
        obtain ⟨ks', hks', hcons⟩ := Option.map_eq_some'.mp hk
        have hne : kind ≠ 1 := by
          intro h1
          exact hno (by rw [← hcons, h1]; exact List.mem_cons_self _ _)
        rw [pefLoop_succ_lt fuelL data file pos hpos file (pos + 4 + len)
          (pefStep_non_zip64 file data pos kind len e1 e2 hne)]
        exact ih fuelK (by omega) file (pos + 4 + len) ks' hks'
          (fun hm => hno (by rw [← hcons]; exact List.mem_cons_of_mem _ hm))
    · exact pefLoop_at_end _ _ _ _ hpos

theorem pefZip64Header_general (file : ZipFileData) (data : List Byte)
    (p c0 v : Nat)
    (hread : file.header_start = 0xFFFFFFFF → readU64At data (p + c0) = some v) :
    pefZip64Header file data p c0 =
      (({ file with
          header_start :=
            if file.header_start = 0xFFFFFFFF then v else file.header_start },
        c0 + if file.header_start = 0xFFFFFFFF then 8 else 0), none) := by
  unfold pefZip64Header
  by_cases h : file.header_start = 0xFFFFFFFF
  · simp only [if_pos h]
    rw [hread h]
  · simp only [if_neg h]
    rfl

theorem pefZip64Compressed_general (file : ZipFileData) (data : List Byte)
    (p c0 b c : Nat)
    (hb : file.compressed_size = 0xFFFFFFFF → readU64At data (p + c0) = some b)
    (hc : file.header_start = 0xFFFFFFFF →
      readU64At data
        (p + (c0 + if file.compressed_size = 0xFFFFFFFF then 8 else 0)) =
      some c) :
    pefZip64Compressed file data p c0 =
      (({ file with
          compressed_size :=
            if file.compressed_size = 0xFFFFFFFF then b
            else file.compressed_size
          header_start :=
            if file.header_start = 0xFFFFFFFF then c else file.header_start },
        c0 + (if file.compressed_size = 0xFFFFFFFF then 8 else 0)
          + if file.header_start = 0xFFFFFFFF then 8 else 0), none) := by
  unfold pefZip64Compressed
  by_cases h : file.compressed_size = 0xFFFFFFFF
  · simp only [if_pos h]
    rw [hb h]
    exact pefZip64Header_general { file with compressed_size := b } data p
      (c0 + 8) c (fun hh => by simpa [if_pos h] using hc hh)
  · simp only [if_neg h]
    exact pefZip64Header_general file data p c0 c
      (fun hh => by simpa [if_neg h] using hc hh)

theorem pefZip64Uncompressed_general (file : ZipFileData) (data : List Byte)
    (p a b c : Nat)
    (ha : file.uncompressed_size = 0xFFFFFFFF → readU64At data p = some a)
    (hb : file.compressed_size = 0xFFFFFFFF →
      readU64At data
        (p + if file.uncompressed_size = 0xFFFFFFFF then 8 else 0) = some b)
    (hc : file.header_start = 0xFFFFFFFF →
      readU64At data
        (p + ((if file.uncompressed_size = 0xFFFFFFFF then 8 else 0)
          + if file.compressed_size = 0xFFFFFFFF then 8 else 0)) = some c) :
    pefZip64Uncompressed file data p =
      (({ file with
          uncompressed_size :=
            if file.uncompressed_size = 0xFFFFFFFF then a
            else file.uncompressed_size
          compressed_size :=
            if file.compressed_size = 0xFFFFFFFF then b
            else file.compressed_size
          header_start :=
            if file.header_start = 0xFFFFFFFF then c else file.header_start },
        (if file.uncompressed_size = 0xFFFFFFFF then 8 else 0)
          + (if file.compressed_size = 0xFFFFFFFF then 8 else 0)
          + if file.header_start = 0xFFFFFFFF then 8 else 0), none) := by
  unfold pefZip64Uncompressed
  by_cases h : file.uncompressed_size = 0xFFFFFFFF
  · simp only [if_pos h]
    rw [ha h]
    exact pefZip64Compressed_general { file with uncompressed_size := a } data
      p 8 b c (fun hh => by simpa [if_pos h] using hb hh)
      (fun hh => by simpa [if_pos h] using hc hh)
  · simp only [if_neg h]
    exact pefZip64Compressed_general file data p 0 b c
      (fun hh => by simpa [if_neg h] using hb hh)
      (fun hh => by simpa [if_neg h] using hc hh)

/-- Claim C3 (amended): when any of compressed_size / uncompressed_size /
header_start holds the sentinel 0xFFFFFFFF, a ZIP64 (0x0001) extra-field
record — if present — supplies the 64-bit replacements: the walk replaces
exactly the fields currently equal to the sentinel, in the source's fixed
order (uncompressed, compressed, header offset), whatever further payload
the record declares (e.g. the disk-start u32) and whatever other records
follow.  When no 0x0001 record exists the entry is NOT rejected: the
extra-field walk leaves every field of the entry unchanged — the sentinel
stays, merely widened to 64 bits — and `central_header_to_zip_file`
accepts every parseable central header whose extra field is free of
0x0001 records, returning the entry with its sentinel field values
kept. -/
theorem zip64_promotion_amended (file : ZipFileData) (a b c : Nat)
    (ha : a < 2 ^ 64) (hb : b < 2 ^ 64) (hc : c < 2 ^ 64)
    (hsent : file.uncompressed_size = 0xFFFFFFFF ∨
      file.compressed_size = 0xFFFFFFFF ∨ file.header_start = 0xFFFFFFFF) :
    (∀ (tail sfx : List Byte) (ks : List Nat),
      recordConsumed 1 file + tail.length < 65536 →
      extraFieldKinds ((zip64RecordBlob file a b c tail sfx).length + 1)
          (zip64RecordBlob file a b c tail sfx)
          (4 + (recordConsumed 1 file + tail.length)) = some ks →
      1 ∉ ks →
      parse_extra_field file (zip64RecordBlob file a b c tail sfx) =
        ({ file with
            uncompressed_size :=
              if file.uncompressed_size = 0xFFFFFFFF then a
              else file.uncompressed_size
            compressed_size :=
              if file.compressed_size = 0xFFFFFFFF then b
              else file.compressed_size
            header_start :=
              if file.header_start = 0xFFFFFFFF then c
              else file.header_start }, none))
    ∧ (∀ (data : List Byte) (ks : List Nat),
        extraFieldKinds (data.length + 1) data 0 = some ks → 1 ∉ ks →
        parse_extra_field file data = (file, none))
    ∧ (∀ (dec1 dec2 : List Byte → String) (s1 : List Byte) (chs aoff : Nat)
        (fields : CentralHeaderFields) (rest : List Byte) (ks : List Nat),
        readCentralHeaderFields s1 = some (fields, rest) →
        extraFieldKinds (fields.extra_field.length + 1) fields.extra_field 0 =
          some ks →
        1 ∉ ks →
        ∃ r : ZipFileData,
          central_header_to_zip_file dec1 dec2
              ([0x50, 0x4b, 0x01, 0x02] ++ s1) chs aoff = .ok (r, rest)
          ∧ r.compressed_size = fields.compressed_size
          ∧ r.uncompressed_size = fields.uncompressed_size
          ∧ r.header_start = (fields.offset + aoff) % 2 ^ 64) := by
  refine ⟨?_, ?_, ?_⟩
  · intro tail sfx ks h16 hkind hno
    have hk0 : readU16At (zip64RecordBlob file a b c tail sfx) 0 = some 1 := rfl
    have hl0 : readU16At (zip64RecordBlob file a b c tail sfx) 2 =
        some (recordConsumed 1 file + tail.length) := by
      have h1 := readU16At_toLE [1, 0]
        (recordConsumed 1 file + tail.length)
        (((if file.uncompressed_size = 0xFFFFFFFF then toLE 8 a else []) ++
          ((if file.compressed_size = 0xFFFFFFFF then toLE 8 b else []) ++
           (if file.header_start = 0xFFFFFFFF then toLE 8 c else []))) ++
         (tail ++ sfx))
      rw [Nat.mod_eq_of_lt h16] at h1
      simpa [zip64RecordBlob] using h1
    have hra : file.uncompressed_size = 0xFFFFFFFF →
        readU64At (zip64RecordBlob file a b c tail sfx) 4 = some a := by
      intro hu
      refine readU64At_at _
        ([1, 0] ++ toLE 2 (recordConsumed 1 file + tail.length)) a
        (((if file.compressed_size = 0xFFFFFFFF then toLE 8 b else []) ++
          (if file.header_start = 0xFFFFFFFF then toLE 8 c else [])) ++
         (tail ++ sfx)) 4 ?_ ?_ ha
      · simp [zip64RecordBlob, if_pos hu, List.append_assoc]
      · simp [toLE_length]
    have hrb : file.compressed_size = 0xFFFFFFFF →
        readU64At (zip64RecordBlob file a b c tail sfx)
          (4 + if file.uncompressed_size = 0xFFFFFFFF then 8 else 0) =
        some b := by
      intro hcs
      by_cases hu : file.uncompressed_size = 0xFFFFFFFF
      · refine readU64At_at _
          (([1, 0] ++ toLE 2 (recordConsumed 1 file + tail.length)) ++
            toLE 8 a) b
          ((if file.header_start = 0xFFFFFFFF then toLE 8 c else []) ++
           (tail ++ sfx)) _ ?_ ?_ hb
        · simp [zip64RecordBlob, if_pos hu, if_pos hcs, List.append_assoc]
        · simp [toLE_length, if_pos hu]
      · refine readU64At_at _
          ([1, 0] ++ toLE 2 (recordConsumed 1 file + tail.length)) b
          ((if file.header_start = 0xFFFFFFFF then toLE 8 c else []) ++
           (tail ++ sfx)) _ ?_ ?_ hb
        · simp [zip64RecordBlob, if_neg hu, if_pos hcs, List.append_assoc]
        · simp [toLE_length, if_neg hu]
    have hrc : file.header_start = 0xFFFFFFFF →
        readU64At (zip64RecordBlob file a b c tail sfx)
          (4 + ((if file.uncompressed_size = 0xFFFFFFFF then 8 else 0)
            + if file.compressed_size = 0xFFFFFFFF then 8 else 0)) =
        some c := by
      intro hh
      by_cases hu : file.uncompressed_size = 0xFFFFFFFF <;>
        by_cases hcs : file.compressed_size = 0xFFFFFFFF
      · refine readU64At_at _
          ((([1, 0] ++ toLE 2 (recordConsumed 1 file + tail.length)) ++
            toLE 8 a) ++ toLE 8 b) c (tail ++ sfx) _ ?_ ?_ hc
        · simp [zip64RecordBlob, if_pos hu, if_pos hcs, if_pos hh,
            List.append_assoc]
        · simp [toLE_length, if_pos hu, if_pos hcs]
      · refine readU64At_at _
          (([1, 0] ++ toLE 2 (recordConsumed 1 file + tail.length)) ++
            toLE 8 a) c (tail ++ sfx) _ ?_ ?_ hc
        · simp [zip64RecordBlob, if_pos hu, if_neg hcs, if_pos hh,
            List.append_assoc]
        · simp [toLE_length, if_pos hu, if_neg hcs]
      · refine readU64At_at _
          (([1, 0] ++ toLE 2 (recordConsumed 1 file + tail.length)) ++
            toLE 8 b) c (tail ++ sfx) _ ?_ ?_ hc
        · simp [zip64RecordBlob, if_neg hu, if_pos hcs, if_pos hh,
            List.append_assoc]
        · simp [toLE_length, if_neg hu, if_pos hcs]
      · refine readU64At_at _
          ([1, 0] ++ toLE 2 (recordConsumed 1 file + tail.length)) c
          (tail ++ sfx) _ ?_ ?_ hc
        · simp [zip64RecordBlob, if_neg hu, if_neg hcs, if_pos hh,
            List.append_assoc]
        · simp [toLE_length, if_neg hu, if_neg hcs]
    have hz' : pefZip64Uncompressed file
        (zip64RecordBlob file a b c tail sfx) 4 =
        (({ file with
            uncompressed_size :=
              if file.uncompressed_size = 0xFFFFFFFF then a
              else file.uncompressed_size
            compressed_size :=
              if file.compressed_size = 0xFFFFFFFF then b
              else file.compressed_size
            header_start :=
              if file.header_start = 0xFFFFFFFF then c
              else file.header_start }, recordConsumed 1 file), none) :=
      pefZip64Uncompressed_general file (zip64RecordBlob file a b c tail sfx)
        4 a b c hra hrb hrc
    have hstep := pefStep_of_zip64 file (zip64RecordBlob file a b c tail sfx)
      (recordConsumed 1 file + tail.length) _ (recordConsumed 1 file)
      hk0 hl0 hz' (Nat.le_add_right _ _)
    have hpos : 0 < (zip64RecordBlob file a b c tail sfx).length := by
      simp [zip64RecordBlob]
    unfold parse_extra_field
    rw [pefLoop_succ_lt (zip64RecordBlob file a b c tail sfx).length
      (zip64RecordBlob file a b c tail sfx) file 0 hpos _
      (4 + (recordConsumed 1 file + tail.length)) hstep]
    exact pefLoop_no_zip64 (zip64RecordBlob file a b c tail sfx).length
      ((zip64RecordBlob file a b c tail sfx).length + 1) (Nat.le_succ _)
      (zip64RecordBlob file a b c tail sfx) _
      (4 + (recordConsumed 1 file + tail.length)) ks hkind hno
  · intro data ks h1 h2
    exact pefLoop_no_zip64 (data.length + 1) (data.length + 1) le_rfl data
      file 0 ks h1 h2
  · intro dec1 dec2 s1 chs aoff fields rest ks hf hkind hno
    have hsig : readU32le ([0x50, 0x4b, 0x01, 0x02] ++ s1) =
        some (CENTRAL_DIRECTORY_HEADER_SIGNATURE, s1) := rfl
    unfold central_header_to_zip_file
    rw [hsig]
    dsimp only
    rw [if_neg (by decide : ¬ CENTRAL_DIRECTORY_HEADER_SIGNATURE ≠
      CENTRAL_DIRECTORY_HEADER_SIGNATURE)]
    rw [hf]
    dsimp only
    rw [show ∀ g : ZipFileData,
        parse_extra_field g fields.extra_field = (g, none) from
      fun g => pefLoop_no_zip64 (fields.extra_field.length + 1)
        (fields.extra_field.length + 1) le_rfl fields.extra_field g 0 ks
        hkind hno]
    exact ⟨_, rfl, rfl, rfl, rfl⟩

theorem zip64_promotion_amended_witness :
    parse_extra_field c3entry
        (zip64RecordBlob c3entry (2 ^ 33) (2 ^ 34) (2 ^ 35) (toLE 4 0) []) =
      ({ c3entry with
          uncompressed_size :=
            if c3entry.uncompressed_size = 0xFFFFFFFF then 2 ^ 33
            else c3entry.uncompressed_size
          compressed_size :=
            if c3entry.compressed_size = 0xFFFFFFFF then 2 ^ 34
            else c3entry.compressed_size
          header_start :=
            if c3entry.header_start = 0xFFFFFFFF then 2 ^ 35
            else c3entry.header_start }, none)
    ∧ parse_extra_field c3entry [7, 0, 1, 0, 5] = (c3entry, none)
    ∧ c3entry.compressed_size = 0xFFFFFFFF
    ∧ c3entry.uncompressed_size ≠ 0xFFFFFFFF :=
  ⟨(zip64_promotion_amended c3entry (2 ^ 33) (2 ^ 34) (2 ^ 35) (by norm_num)
      (by norm_num) (by norm_num) (Or.inr (Or.inl (by decide)))).1
      (toLE 4 0) [] [] (by decide) (by decide) (by decide),
   (zip64_promotion_amended c3entry (2 ^ 33) (2 ^ 34) (2 ^ 35) (by norm_num)
      (by norm_num) (by norm_num) (Or.inr (Or.inl (by decide)))).2.1
      [7, 0, 1, 0, 5] [7] (by decide) (by decide),
   by decide, by decide⟩

/-- Claim C3, counterexample: a central directory header whose
compressed_size field is the sentinel 0xFFFFFFFF and whose extra field is
empty (no 0x0001 record) is accepted by `central_header_to_zip_file` —
the entry keeps compressed_size 0xFFFFFFFF and no `InvalidArchive` error
is produced, so archive construction does not reject the archive. -/
theorem zip64_sentinel_without_record_accepted :
    central_header_to_zip_file byteDecode byteDecode c3header 0 0 =
      .ok (c3entry, []) ∧
    readU32At c3header 20 = some 0xFFFFFFFF ∧
    readU16At c3header 30 = some 0 ∧
    c3entry.compressed_size = 0xFFFFFFFF := by
  decide

/-- Claim C5: when no ZIP64 locator is found, `archive_offset =
cde_start_pos − cd_size − cd_offset` by checked subtraction (underflow
rejected as `InvalidArchive`), `directory_start = cd_offset +
archive_offset`, and the entry count is the EOCD's files-on-this-disk
field. -/
theorem get_directory_counts_no_zip64_spec (footer : CentralDirectoryEnd)
    (cde_start_pos : Nat) (h64 : cde_start_pos < 2 ^ 64) :
    get_directory_counts_no_zip64 footer cde_start_pos =
      if footer.central_directory_size + footer.central_directory_offset ≤
          cde_start_pos then
        .ok (cde_start_pos - footer.central_directory_size -
              footer.central_directory_offset,
            footer.central_directory_offset +
              (cde_start_pos - footer.central_directory_size -
                footer.central_directory_offset),
            footer.number_of_files_on_this_disk)
      else .error (.invalidArchive ("Invalid central directory size or offset")) := by
  by_cases hle : footer.central_directory_size + footer.central_directory_offset ≤
      cde_start_pos
  · rw [if_pos hle]
    unfold get_directory_counts_no_zip64
    have e1 : checkedSub cde_start_pos footer.central_directory_size =
        some (cde_start_pos - footer.central_directory_size) := by
      unfold checkedSub
      rw [if_pos (by omega)]
    rw [e1]
    dsimp only [Option.bind]
    have e2 : checkedSub (cde_start_pos - footer.central_directory_size)
        footer.central_directory_offset =
        some (cde_start_pos - footer.central_directory_size -
          footer.central_directory_offset) := by
      unfold checkedSub
      rw [if_pos (by omega)]
    rw [e2]
    dsimp only
    rw [Nat.mod_eq_of_lt (by omega)]
  · rw [if_neg hle]
    unfold get_directory_counts_no_zip64
    by_cases h1 : footer.central_directory_size ≤ cde_start_pos
    · have e1 : checkedSub cde_start_pos footer.central_directory_size =
          some (cde_start_pos - footer.central_directory_size) := by
        unfold checkedSub
        rw [if_pos h1]
      rw [e1]
      dsimp only [Option.bind]
      have e2 : checkedSub (cde_start_pos - footer.central_directory_size)
          footer.central_directory_offset = none := by
        unfold checkedSub
        rw [if_neg (by omega)]
      rw [e2]
    · have e1 : checkedSub cde_start_pos footer.central_directory_size = none := by
        unfold checkedSub
        rw [if_neg h1]
      rw [e1]
      rfl

theorem get_directory_counts_no_zip64_spec_witness :
    get_directory_counts_no_zip64 ⟨0, 0, 7, 7, 10, 20, []⟩ 100 =
      .ok (70, 90, 7) := by
  have h := get_directory_counts_no_zip64_spec ⟨0, 0, 7, 7, 10, 20, []⟩ 100
    (by norm_num)
  simpa using h

theorem pefZip64Header_err (file : ZipFileData) (data : List Byte) (p c : Nat) :
    (pefZip64Header file data p c).2 = none ∨
    (pefZip64Header file data p c).2 = some .ioErr := by
  unfold pefZip64Header
  split
  · split <;> simp
  · simp

theorem pefZip64Compressed_err (file : ZipFileData) (data : List Byte) (p c : Nat) :
    (pefZip64Compressed file data p c).2 = none ∨
    (pefZip64Compressed file data p c).2 = some .ioErr := by
  unfold pefZip64Compressed
  split
  · split
    · simp
    · exact pefZip64Header_err _ _ _ _
  · exact pefZip64Header_err _ _ _ _

theorem pefZip64Uncompressed_err (file : ZipFileData) (data : List Byte) (p : Nat) :
    (pefZip64Uncompressed file data p).2 = none ∨
    (pefZip64Uncompressed file data p).2 = some .ioErr := by
  unfold pefZip64Uncompressed
  split
  · split
    · simp
    · exact pefZip64Compressed_err _ _ _ _
  · exact pefZip64Compressed_err _ _ _ _

theorem pefStep_err (file : ZipFileData) (data : List Byte) (pos : Nat) :
    (pefStep file data pos).2 = none ∨ (pefStep file data pos).2 = some .ioErr := by
  unfold pefStep
  split
  · simp
  · split
    · simp
    · split
      · rename_i f1 c1 e1 heq
        have herr : e1 = ZipErr.ioErr := by
          split at heq
          · have h2 := pefZip64Uncompressed_err file data (pos + 4)
            rw [heq] at h2
            simpa using h2
          · simp at heq
        simp [herr]
      · dsimp only
        split <;> simp

theorem pefLoop_err (fuel : Nat) (data : List Byte) :
    ∀ (file : ZipFileData) (pos : Nat),
      (pefLoop fuel data file pos).2 = none ∨
      (pefLoop fuel data file pos).2 = some .ioErr := by
  induction fuel with
  | zero => intro file pos; simp [pefLoop]
  | succ fuel ih =>
    intro file pos
    unfold pefLoop
    split
    · split
      · rename_i f1 p1 e1 heq
        have h2 := pefStep_err file data pos
        rw [heq] at h2
        simpa using h2
      · exact ih _ _
    · simp

theorem parse_extra_field_err (file : ZipFileData) (data : List Byte) :
    (parse_extra_field file data).2 = none ∨
    (parse_extra_field file data).2 = some .ioErr :=
  pefLoop_err _ _ _ _

/-- Claim C6: the streaming reader returns `Ok(None)` on the
central-directory signature, continues on the local-file-header signature
and rejects any other signature with `InvalidArchive("Invalid local file
header")`; after the header (including the extra field) is parsed, flag
bit 0 is rejected as `UnsupportedArchive("Encrypted files are not
supported")` and, when bit 0 is clear, flag bit 3 as
`UnsupportedArchive("The file length is not available in the local
header")`. -/
theorem read_zipfile_from_stream_spec (u c : List Byte → String)
    (val : ZipCryptoValidator) (s : List Byte) (v : Nat) (rest : List Byte)
    (hsig : readU32le s = some (v, rest)) :
    (v = CENTRAL_DIRECTORY_HEADER_SIGNATURE →
      read_zipfile_from_stream u c val s = .ok none)
    ∧ (v ≠ CENTRAL_DIRECTORY_HEADER_SIGNATURE → v ≠ LOCAL_FILE_HEADER_SIGNATURE →
      read_zipfile_from_stream u c val s =
        .error (.invalidArchive ("Invalid local file header")))
    ∧ (∀ (h : LocalHeaderFields) (rest2 : List Byte),
        v = LOCAL_FILE_HEADER_SIGNATURE →
        readLocalHeaderFields rest = some (h, rest2) →
        (h.flags &&& 1 = 1 →
          read_zipfile_from_stream u c val s =
            .error (.unsupportedArchive ("Encrypted files are not supported")))
        ∧ (¬ h.flags &&& 1 = 1 → h.flags &&& 8 ≠ 0 →
          read_zipfile_from_stream u c val s =
            .error (.unsupportedArchive
              ("The file length is not available in the local header")))) := by
  refine ⟨?_, ?_, ?_⟩
  · intro hv
    unfold read_zipfile_from_stream
    rw [hsig]
    dsimp only
    rw [if_neg (by rw [hv]; decide), if_pos hv]
  · intro h1 h2
    unfold read_zipfile_from_stream
    rw [hsig]
    dsimp only
    rw [if_neg h2, if_neg h1]
  · intro h rest2 hv hfields
    unfold read_zipfile_from_stream
    rw [hsig]
    dsimp only
    rw [if_pos hv, hfields]
    dsimp only
    have herr := parse_extra_field_err
      { system := System.from_u8 (h.version_made_by / 256)
        version_made_by := h.version_made_by % 256
        encrypted := h.flags &&& 1 = 1
        compression_method := CompressionMethod.from_u16 h.compression_method
        last_modified_time := DateTime.from_msdos h.last_mod_date h.last_mod_time
        crc32 := h.crc32
        compressed_size := h.compressed_size
        uncompressed_size := h.uncompressed_size
        file_name := if h.flags &&& (1 <<< 11) ≠ 0 then u h.file_name_raw
          else c h.file_name_raw
        file_name_raw := h.file_name_raw
        file_comment := ""
        header_start := 0
        data_start := 0
        central_header_start := 0
        external_attributes := 0 } h.extra_field
    rcases hp : parse_extra_field
      { system := System.from_u8 (h.version_made_by / 256)
        version_made_by := h.version_made_by % 256
        encrypted := h.flags &&& 1 = 1
        compression_method := CompressionMethod.from_u16 h.compression_method
        last_modified_time := DateTime.from_msdos h.last_mod_date h.last_mod_time
        crc32 := h.crc32
        compressed_size := h.compressed_size
        uncompressed_size := h.uncompressed_size
        file_name := if h.flags &&& (1 <<< 11) ≠ 0 then u h.file_name_raw
          else c h.file_name_raw
        file_name_raw := h.file_name_raw
        file_comment := ""
        header_start := 0
        data_start := 0
        central_header_start := 0
        external_attributes := 0 } h.extra_field with ⟨r, err⟩
    rw [hp] at herr
    simp only at herr
    constructor
    · intro henc
      rcases herr with he | he <;> subst he <;> dsimp only <;>
        rw [if_pos henc]
    · intro hnenc hdd
      rcases herr with he | he <;> subst he <;> dsimp only <;>
        rw [if_neg hnenc, if_pos (show h.flags &&& (1 <<< 3) ≠ 0 from hdd)]

theorem read_zipfile_from_stream_spec_witness :
    read_zipfile_from_stream byteDecode byteDecode acceptValidator
      [0x50, 0x4b, 0x01, 0x02] = .ok none :=
  (read_zipfile_from_stream_spec byteDecode byteDecode acceptValidator
    [0x50, 0x4b, 0x01, 0x02] 0x02014b50 [] (by decide)).1 (by decide)

/-- Claim C7 (amended): on a successful open, `data_start` is
`(header_start + 30 + file_name_length + extra_field_length) mod 2^64`
(u64 wrap-around addition), with both lengths read as u16 from the local
header; whenever that sum does not overflow u64 the claimed invariant
`header_start + 30 ≤ data_start ≤ header_start + 30 + 65535 + 65535`
holds.  For `header_start` near `2^64` the sum wraps and the lower bound
fails. -/
theorem find_content_data_start_bounds (data : ZipFileData) (src : List Byte)
    (d : ZipFileData) (w : List Byte) (fnl efl : Nat)
    (hf : readU16At src (data.header_start + 26) = some fnl)
    (he : readU16At src (data.header_start + 28) = some efl)
    (h : find_content data src = .ok (d, w)) :
    d.data_start = (data.header_start + 30 + fnl + efl) % 2 ^ 64
    ∧ (data.header_start + 30 + fnl + efl < 2 ^ 64 →
        data.header_start + 30 ≤ d.data_start ∧
        d.data_start ≤ data.header_start + 30 + 65535 + 65535) := by
  have hfb := readU16At_le _ _ _ hf
  have heb := readU16At_le _ _ _ he
  unfold find_content at h
  split at h
  · exact Except.noConfusion h
  · split at h
    · exact Except.noConfusion h
    · split at h
      · rename_i fnl' efl' heq1 heq2
        rw [hf] at heq1
        rw [he] at heq2
        injection heq1 with heq1
        injection heq2 with heq2
        subst heq1
        subst heq2
        dsimp only at h
        injection h with h1
        have hd : d = { data with data_start :=
            (data.header_start + (4 + 22 + 2 + 2) + fnl + efl) % 2 ^ 64 } := by
          have := congrArg Prod.fst h1
          exact this.symm
        subst hd
        constructor
        · dsimp only
        · intro hlt
          dsimp only
          have hmod : (data.header_start + (4 + 22 + 2 + 2) + fnl + efl) % 2 ^ 64 =
              data.header_start + 30 + fnl + efl := by
            rw [show data.header_start + (4 + 22 + 2 + 2) + fnl + efl =
              data.header_start + 30 + fnl + efl by omega]
            exact Nat.mod_eq_of_lt hlt
          rw [hmod]
          omega
      · exact Except.noConfusion h

theorem find_content_data_start_bounds_witness :
    ({ sampleEntry with data_start := 30 } : ZipFileData).data_start =
      (sampleEntry.header_start + 30 + 0 + 0) % 2 ^ 64
    ∧ (sampleEntry.header_start + 30 + 0 + 0 < 2 ^ 64 →
        sampleEntry.header_start + 30 ≤
          ({ sampleEntry with data_start := 30 } : ZipFileData).data_start ∧
        ({ sampleEntry with data_start := 30 } : ZipFileData).data_start ≤
          sampleEntry.header_start + 30 + 65535 + 65535) :=
  find_content_data_start_bounds sampleEntry sampleSource
    { sampleEntry with data_start := 30 } [97, 98, 99] 0 0
    (by decide) (by decide) (by decide)

theorem find_content_eq (data : ZipFileData) (src : List Byte) (fnl efl : Nat)
    (h32 : readU32At src data.header_start = some LOCAL_FILE_HEADER_SIGNATURE)
    (hf : readU16At src (data.header_start + 26) = some fnl)
    (he : readU16At src (data.header_start + 28) = some efl) :
    find_content data src =
      .ok ({ data with data_start := (data.header_start + 30 + fnl + efl) % 2 ^ 64 },
        (src.drop ((data.header_start + 30 + fnl + efl) % 2 ^ 64)).take
          data.compressed_size) := by
  unfold find_content
  rw [h32]
  dsimp only
  rw [if_neg (by decide :
    ¬ (LOCAL_FILE_HEADER_SIGNATURE ≠ LOCAL_FILE_HEADER_SIGNATURE))]
  rw [hf, he]

/-- Claim C7, counterexample: an entry whose (ZIP64-widened) header_start
is `2^64 - 1`, opened against a source that holds a well-formed local file
header at that position, resolves successfully — but `data_start` is the
wrapped u64 sum `29`, so `header_start + 30 ≤ data_start` fails. -/
theorem data_start_invariant_violated :
    find_content c7entry c7source = .ok ({ c7entry with data_start := 29 }, [])
    ∧ c7entry.header_start = 2 ^ 64 - 1
    ∧ ¬ (c7entry.header_start + 30 ≤
          ({ c7entry with data_start := 29 } : ZipFileData).data_start) := by
  have hidx : ∀ j : Nat, c7source[2 ^ 64 - 1 + j]? = plainLocalHeader[j]? := by
    intro j
    have hlen : (List.replicate (2 ^ 64 - 1) (0 : Byte)).length = 2 ^ 64 - 1 :=
      List.length_replicate _ _
    unfold c7source
    rw [List.getElem?_append_right (by rw [hlen]; exact Nat.le_add_right _ _),
      hlen, Nat.add_sub_cancel_left]
  have hb0 : c7source[2 ^ 64 - 1]? = some (0x50 : Byte) := by
    have h0 := hidx 0
    rw [Nat.add_zero] at h0
    rw [h0]
    decide
  have hb1 : c7source[2 ^ 64 - 1 + 1]? = some (0x4b : Byte) := by
    rw [hidx 1]
    decide
  have hb2 : c7source[2 ^ 64 - 1 + 2]? = some (0x03 : Byte) := by
    rw [hidx 2]
    decide
  have hb3 : c7source[2 ^ 64 - 1 + 2 + 1]? = some (0x04 : Byte) := by
    rw [show 2 ^ 64 - 1 + 2 + 1 = 2 ^ 64 - 1 + 3 by omega, hidx 3]
    decide
  have hb26 : c7source[2 ^ 64 - 1 + 26]? = some (0 : Byte) := by
    rw [hidx 26]
    decide
  have hb27 : c7source[2 ^ 64 - 1 + 26 + 1]? = some (0 : Byte) := by
    rw [show 2 ^ 64 - 1 + 26 + 1 = 2 ^ 64 - 1 + 27 by omega, hidx 27]
    decide
  have hb28 : c7source[2 ^ 64 - 1 + 28]? = some (0 : Byte) := by
    rw [hidx 28]
    decide
  have hb29 : c7source[2 ^ 64 - 1 + 28 + 1]? = some (0 : Byte) := by
    rw [show 2 ^ 64 - 1 + 28 + 1 = 2 ^ 64 - 1 + 29 by omega, hidx 29]
    decide
  have u16a : readU16At c7source (2 ^ 64 - 1) = some 19280 := by
    have hr := readU16At_of _ _ _ _ hb0 hb1
    rw [hr]
    decide
  have u16b : readU16At c7source (2 ^ 64 - 1 + 2) = some 1027 := by
    have hr := readU16At_of _ _ _ _ hb2 hb3
    rw [hr]
    decide
  have h32 : readU32At c7source (2 ^ 64 - 1) = some LOCAL_FILE_HEADER_SIGNATURE := by
    have hr := readU32At_of _ _ _ _ u16a u16b
    rw [hr]
    decide
  have hfn : readU16At c7source (2 ^ 64 - 1 + 26) = some 0 := by
    have hr := readU16At_of _ _ _ _ hb26 hb27
    rw [hr]
    decide
  have hef : readU16At c7source (2 ^ 64 - 1 + 28) = some 0 := by
    have hr := readU16At_of _ _ _ _ hb28 hb29
    rw [hr]
    decide
  refine ⟨?_, by decide, by decide⟩
  have hhs : c7entry.header_start = 2 ^ 64 - 1 := rfl
  have H32 : readU32At c7source c7entry.header_start =
      some LOCAL_FILE_HEADER_SIGNATURE := by
    rw [hhs]
    exact h32
  have HF : readU16At c7source (c7entry.header_start + 26) = some 0 := by
    rw [hhs]
    exact hfn
  have HE : readU16At c7source (c7entry.header_start + 28) = some 0 := by
    rw [hhs]
    exact hef
  have key := find_content_eq c7entry c7source 0 0 H32 HF HE
  have hds : (c7entry.header_start + 30 + 0 + 0) % 2 ^ 64 = 29 := by
    rw [hhs]
    norm_num
  rw [key, hds]
  rfl

theorem make_crypto_reader_none (val : ZipCryptoValidator)
    (method : CompressionMethod) (crc : Nat) (w : List Byte) :
    make_crypto_reader val method crc w none =
      .error (.unsupportedArchive ("Compression method not supported")) ∨
    make_crypto_reader val method crc w none = .ok (some (.plaintext w)) := by
  unfold make_crypto_reader
  cases method <;> simp

/-- With no password, `by_index_with_optional_password` can never produce
the inner `Err(InvalidPassword)` (`.ok none`), and any successfully
constructed handle carries the plaintext crypto stage: the `.unwrap()` in
`by_index`/`by_name` is dead code. -/
theorem by_index_no_password_no_invalid (val : ZipCryptoValidator)
    (arch : ZipArchive) (i : Nat) :
    (arch.by_index_with_optional_password val i none).1 ≠ .ok none
    ∧ (∀ f a, arch.by_index_with_optional_password val i none = (.ok (some f), a) →
        ∃ w, f.crypto_reader = some (.plaintext w)) := by
  unfold ZipArchive.by_index_with_optional_password
  by_cases h : i < arch.files.length
  · simp only [dif_pos h]
    cases henc : arch.files[i].encrypted
    · dsimp only
      rcases hfc : find_content arch.files[i] arch.reader with e | ⟨d, w⟩
      · dsimp only
        exact ⟨by simp, fun f a hfa => by simp at hfa⟩
      · dsimp only
        rcases make_crypto_reader_none val d.compression_method d.crc32 w
          with hm | hm <;> rw [hm] <;> dsimp only
        · exact ⟨by simp, fun f a hfa => by simp at hfa⟩
        · refine ⟨by simp, fun f a hfa => ?_⟩
          simp only [Prod.mk.injEq] at hfa
          obtain ⟨h1, _⟩ := hfa
          injection h1 with h1
          injection h1 with h1
          exact ⟨w, by rw [← h1]⟩
    · dsimp only
      exact ⟨by simp, fun f a hfa => by simp at hfa⟩
  · simp only [dif_neg h]
    exact ⟨by simp, fun f a hfa => by simp at hfa⟩

/-- Claim C8: for an unencrypted entry, a supplied password is discarded —
`by_index_decrypt` (and `by_name_decrypt` for a name mapping to the entry)
behaves exactly as an open with no password: same result and same archive
state, the inner result is never `InvalidPassword`, and the constructed
reader's crypto stage is the plaintext pass-through. -/
theorem unencrypted_password_discarded (val : ZipCryptoValidator)
    (arch : ZipArchive) (i : Nat) (n : String) (pw : List Nat)
    (h : i < arch.files.length) (henc : arch.files[i].encrypted = false) :
    arch.by_index_decrypt val i pw = arch.by_index_with_optional_password val i none
    ∧ (arch.names_map.lookup n = some i →
        arch.by_name_decrypt val n pw =
          arch.by_index_with_optional_password val i none)
    ∧ (∀ r a, arch.by_index_decrypt val i pw = (.ok r, a) → r ≠ none)
    ∧ (∀ f a, arch.by_index_decrypt val i pw = (.ok (some f), a) →
        ∃ w, f.crypto_reader = some (.plaintext w)) := by
  have hcore : arch.by_index_decrypt val i pw =
      arch.by_index_with_optional_password val i none := by
    unfold ZipArchive.by_index_decrypt ZipArchive.by_index_with_optional_password
    simp only [dif_pos h]
    rw [henc]
  refine ⟨hcore, ?_, ?_, ?_⟩
  · intro hlook
    unfold ZipArchive.by_name_decrypt ZipArchive.by_name_with_optional_password
    rw [hlook]
    exact hcore
  · intro r a hr
    intro hrn
    subst hrn
    have hno := (by_index_no_password_no_invalid val arch i).1
    rw [hcore] at hr
    exact hno (by rw [hr])
  · intro f a hf2
    rw [hcore] at hf2
    exact (by_index_no_password_no_invalid val arch i).2 f a hf2

theorem unencrypted_password_discarded_witness :
    sampleArchive.by_index_decrypt acceptValidator 0 [1, 2, 3] =
      sampleArchive.by_index_with_optional_password acceptValidator 0 none :=
  (unencrypted_password_discarded acceptValidator sampleArchive 0 ("a.txt")
    [1, 2, 3] (by decide) (by decide)).1

/-- Claim C9: opening an encrypted entry with no password fails with
`UnsupportedArchive("Password required to decrypt file")` before any
local-header I/O: the archive (including the entry's unresolved
`data_start`) is returned unchanged, for `by_index_with_optional_password`,
`by_index`, and `by_name`. -/
theorem encrypted_requires_password (val : ZipCryptoValidator)
    (arch : ZipArchive) (i : Nat) (n : String)
    (h : i < arch.files.length) (henc : arch.files[i].encrypted = true) :
    arch.by_index_with_optional_password val i none =
      (.error (.unsupportedArchive ("Password required to decrypt file")), arch)
    ∧ arch.by_index val i =
      (.error (.unsupportedArchive ("Password required to decrypt file")), arch)
    ∧ (arch.names_map.lookup n = some i →
        arch.by_name val n =
          (.error (.unsupportedArchive ("Password required to decrypt file")), arch)) := by
  have hcore : arch.by_index_with_optional_password val i none =
      (.error (.unsupportedArchive ("Password required to decrypt file")), arch) := by
    unfold ZipArchive.by_index_with_optional_password
    simp only [dif_pos h]
    rw [henc]
  refine ⟨hcore, ?_, ?_⟩
  · unfold ZipArchive.by_index
    rw [hcore]
  · intro hlook
    unfold ZipArchive.by_name ZipArchive.by_name_with_optional_password
    rw [hlook]
    dsimp only
    rw [hcore]

theorem encrypted_requires_password_witness :
    sampleArchive.by_index_with_optional_password acceptValidator 1 none =
      (.error (.unsupportedArchive ("Password required to decrypt file")),
       sampleArchive)
    ∧ sampleArchive.by_index acceptValidator 1 =
      (.error (.unsupportedArchive ("Password required to decrypt file")),
       sampleArchive) :=
  ⟨(encrypted_requires_password acceptValidator sampleArchive 1 ("b.txt")
      (by decide) (by decide)).1,
   (encrypted_requires_password acceptValidator sampleArchive 1 ("b.txt")
      (by decide) (by decide)).2.1⟩

theorem find_content_window (data : ZipFileData) (src : List Byte)
    (d : ZipFileData) (w : List Byte)
    (h : find_content data src = .ok (d, w)) :
    w = (src.drop d.data_start).take d.compressed_size := by
  unfold find_content at h
  split at h
  · exact Except.noConfusion h
  · split at h
    · exact Except.noConfusion h
    · split at h
      · dsimp only at h
        injection h with h1
        have hd := congrArg Prod.fst h1
        have hw := congrArg Prod.snd h1
        dsimp only at hd hw
        rw [← hw, ← hd]
      · exact Except.noConfusion h

theorem find_content_err (data : ZipFileData) (src : List Byte) (e : ZipErr)
    (h : find_content data src = .error e) :
    e = .ioErr ∨ e = .invalidArchive ("Invalid local file header") := by
  unfold find_content at h
  split at h
  · injection h with h1
    exact Or.inl h1.symm
  · split at h
    · injection h with h1
      exact Or.inr h1.symm
    · split at h
      · dsimp only at h
        exact Except.noConfusion h
      · injection h with h1
        exact Or.inl h1.symm

/-- Claim C10: `by_index_raw` takes no password and never yields an
`InvalidPassword` / `PasswordRequired` outcome; on success the handle has
no crypto stage and its reader is the raw `Take` window of exactly
`compressed_size` bytes of the source starting at the resolved
`data_start` — decryption, decompression and CRC checking are bypassed. -/
theorem by_index_raw_spec (arch : ZipArchive) (i : Nat) :
    (∀ r a, arch.by_index_raw i = (r, a) →
      r ≠ .error .invalidPassword ∧ r ≠ .error .passwordRequired)
    ∧ (∀ f a, arch.by_index_raw i = (.ok f, a) →
        f.crypto_reader = none ∧
        f.reader = .raw ((arch.reader.drop f.data.data_start).take
          f.data.compressed_size)) := by
  unfold ZipArchive.by_index_raw
  by_cases h : i < arch.files.length
  · simp only [dif_pos h]
    rcases hfc : find_content arch.files[i] arch.reader with e | ⟨d, w⟩
    · dsimp only
      constructor
      · intro r a hr
        simp only [Prod.mk.injEq] at hr
        obtain ⟨h1, _⟩ := hr
        subst h1
        have herr := find_content_err arch.files[i] arch.reader e hfc
        rcases herr with he | he <;> subst he <;> exact ⟨by simp, by simp⟩
      · intro f a hfa
        simp at hfa
    · dsimp only
      constructor
      · intro r a hr
        simp only [Prod.mk.injEq] at hr
        obtain ⟨h1, _⟩ := hr
        subst h1
        exact ⟨by simp, by simp⟩
      · intro f a hfa
        simp only [Prod.mk.injEq] at hfa
        obtain ⟨h1, _⟩ := hfa
        injection h1 with h1
        subst h1
        have hw := find_content_window arch.files[i] arch.reader d w hfc
        exact ⟨rfl, by rw [hw]⟩
  · simp only [dif_neg h]
    constructor
    · intro r a hr
      simp only [Prod.mk.injEq] at hr
      obtain ⟨h1, _⟩ := hr
      subst h1
      exact ⟨by simp, by simp⟩
    · intro f a hfa
      simp at hfa

theorem by_index_raw_spec_witness :
    (⟨{ sampleEntry with data_start := 30 }, none, .raw [97, 98, 99]⟩ :
        ZipFile).crypto_reader = none
    ∧ (⟨{ sampleEntry with data_start := 30 }, none, .raw [97, 98, 99]⟩ :
        ZipFile).reader = .raw ((sampleArchive.reader.drop
          ({ sampleEntry with data_start := 30 } : ZipFileData).data_start).take
          ({ sampleEntry with data_start := 30 } : ZipFileData).compressed_size) :=
  (by_index_raw_spec sampleArchive 0).2
    ⟨{ sampleEntry with data_start := 30 }, none, .raw [97, 98, 99]⟩
    { sampleArchive with
        files := sampleArchive.files.set 0 { sampleEntry with data_start := 30 } }
    (by decide)
